import Mathlib

/-!
# wappalyzergo: redirect policy, browser rule engine and version merge

A shallow embedding of the Go sources

* `internal/http/redirect.go`  (`IsSafeDomainRedirect`)
* `internal/http/client.go`    (`NewClient`, `Client.Fetch`)
* `internal/browser/version.go` (`ExecuteDetectionRules`, `ExtractVersion`)
* `internal/browser/detector.go` (`Detector.EnhanceWithVersions`)
* `cmd/wappalyzer/format.go` (`formatSimpleFingerprints`, `formatDetailedFingerprints`)
* `cmd/wappalyzer/scanner.go` (`scanURL`, `scanURLsConcurrent`)
* `cmd/wappalyzer/input.go` (`getURLs`), `cmd/wappalyzer/main.go`
  (`processURLsDetailed`)

Go strings are Lean `String`s.  Library calls whose behaviour is not part of the
repository (`strings.ToLower`, the `net/http` transport, `regexp`, the chromedp
browser session, the output sink) are explicit arguments of the embedded
functions, so the theorems hold for each behaviour of those libraries.  The
goroutines of `scanURLsConcurrent` are a step relation on the state of its
channels, with the Go scheduler an arbitrary list of steps.
-/

namespace Wappalyzergo

/-! ## internal/http -/

/-- Go `strings.TrimPrefix`: `s` without the leading `pre` when `s` starts with
`pre`, and `s` itself otherwise. -/
def TrimPrefix (s pre : String) : String :=
  if pre.data.isPrefixOf s.data then ⟨s.data.drop pre.data.length⟩ else s

/-- Go `strings.ToLower` on ASCII text: the letters `A` to `Z` are mapped to
`a` to `z`.  Used to instantiate the `toLower` argument on concrete hosts. -/
def asciiToLower (s : String) : String := ⟨s.data.map Char.toLower⟩

/-- The part of `net/url.URL` read by the redirect policy. -/
structure URL where
  Host : String
  deriving DecidableEq, Repr

/-- The part of `net/http.Request` used by `internal/http`. -/
structure Request where
  URL : URL
  /-- The `User-Agent` entry of `req.Header`. -/
  UserAgent : String := ""
  deriving DecidableEq, Repr

/-- `IsSafeDomainRedirect` of `internal/http/redirect.go`.  `toLower` stands for
`strings.ToLower`. -/
def IsSafeDomainRedirect (toLower : String → String) (original new : URL) : Bool :=
  let originalHost := toLower original.Host
  let newHost := toLower new.Host
  -- Same host is always OK
  if originalHost = newHost then true
  else
    -- Remove www. prefix for comparison
    let originalBase := TrimPrefix originalHost "www."
    let newBase := TrimPrefix newHost "www."
    -- Allow if base domains match
    if originalBase = newBase then true
    -- Allow if one has www. and other doesn't but base domain matches
    else if originalBase = newHost ∨ newBase = originalHost then true
    else false

/-- What the `CheckRedirect` closure of `NewClient` can do with one hop:
return `nil`, return one of its two `fmt.Errorf` errors, or fail at `via[0]`
on an empty `via` slice. -/
inductive RedirectDecision where
  /-- The closure returns `nil`: the redirect is followed. -/
  | allow
  /-- The error `stopped after 10 redirects`. -/
  | stoppedAfter10Redirects
  /-- The error `redirect to different domain not allowed: %s -> %s`, with the
  two hosts that are formatted into it. -/
  | differentDomain (originalHost newHost : String)
  /-- Run-time failure of `via[0]` (index out of range). -/
  | indexOutOfRange
  deriving DecidableEq, Repr

/-- The `CheckRedirect` closure installed by `NewClient` in
`internal/http/client.go`. -/
def CheckRedirect (toLower : String → String) (req : Request) (via : List Request) :
    RedirectDecision :=
  -- Limit redirect count
  if via.length ≥ 10 then RedirectDecision.stoppedAfter10Redirects
  else
    match via with
    | [] => RedirectDecision.indexOutOfRange
    | first :: _ =>
      -- Get original URL (first request)
      let originalURL := first.URL
      let newURL := req.URL
      -- Only allow redirects to same domain or www subdomain
      if ¬ (IsSafeDomainRedirect toLower originalURL newURL = true) then
        RedirectDecision.differentDomain originalURL.Host newURL.Host
      else RedirectDecision.allow

/-- The redirect loop of `net/http.Client`, as far as the policy is concerned:
"the client calls `CheckRedirect` before following an HTTP redirect; the
arguments `req` and `via` are the upcoming request and the requests made
already, oldest first".  `via` holds the requests made so far and `hops` the
requests the successive redirect responses ask for.  The result is the list of
requests made when every hop was allowed, or the decision that stopped the
fetch. -/
def followRedirects (toLower : String → String) :
    List Request → List Request → Except RedirectDecision (List Request)
  | via, [] => Except.ok via
  | via, req :: hops =>
    match CheckRedirect toLower req via with
    | RedirectDecision.allow => followRedirects toLower (via ++ [req]) hops
    | d => Except.error d

/-! ## internal/browser: the rule engine -/

/-- Modelled from the spec: the declaration of `wappalyzer.DetectionRule` is not
among the sources.  A detection rule is a tagged variant, dom-selector(selector)
or js-eval(expression); the fields are the ones `ExecuteDetectionRules` reads
(`Typ` is the Go field `Type`). -/
structure DetectionRule where
  Typ : String
  Selector : String := ""
  Query : String := ""
  deriving DecidableEq, Repr

/-- Modelled from the spec: the declaration of `wappalyzer.VersionExtraction` is
not among the sources.  A version rule is a tagged variant,
dom-attribute(selector, attribute, optional capture-pattern) or
js-eval(expression); the fields are the ones `ExtractVersion` reads (`Typ` is the
Go field `Type`). -/
structure VersionExtraction where
  Typ : String
  Selector : String := ""
  Attribute : String := ""
  Pattern : String := ""
  Query : String := ""
  deriving DecidableEq, Repr

/-- The chromedp session as the rule engine sees it, over a page state `σ` that
every call may change.  An error is the `err` of `chromedp.Run` (evaluation
failure, result of the wrong type, cancelled context). -/
structure Browser (σ : Type) where
  /-- `chromedp.Run(browserCtx, Navigate(url), WaitReady("body"), Sleep(waitTime))`
  on a fresh context: the page state reached, or the error. -/
  navigate : String → Except String σ
  /-- `chromedp.Run(ctx, chromedp.Evaluate(script, &result))` with `result` a
  `bool`. -/
  evalBool : σ → String → Except String Bool × σ
  /-- `chromedp.Run(ctx, chromedp.Evaluate(script, &version))` with `version` a
  `string`. -/
  evalString : σ → String → Except String String × σ

/-- Go `regexp`: `Compile pattern` is `none` when `regexp.Compile` returns an
error, and otherwise the `FindStringSubmatch` of the compiled expression, which
gives the whole match followed by the capture groups, and the empty slice when
the expression does not match. -/
structure Regexp where
  Compile : String → Option (String → List String)

/-- The script of a `dom-selector` rule:
`fmt.Sprintf("!!document.querySelector('%s')", rule.Selector)`. -/
def selectorScript (selector : String) : String :=
  "!!document.querySelector('" ++ selector ++ "')"

/-- The script of a `dom-attribute` rule: the `fmt.Sprintf` of the raw string
literal in `ExtractVersion` with the selector and the attribute. -/
def attributeScript (selector attr : String) : String :=
  "\n\t\t\t\t(() => \x7b\n\t\t\t\t\tconst el = document.querySelector('" ++ selector ++
  "');\n\t\t\t\t\tif (el) \x7b\n\t\t\t\t\t\tconst value = el.getAttribute('" ++ attr ++
  "');\n\t\t\t\t\t\tif (value) \x7b\n\t\t\t\t\t\t\treturn value;\n\t\t\t\t\t\t\x7d\n\t\t\t\t\t\x7d" ++
  "\n\t\t\t\t\treturn '';\n\t\t\t\t\x7d)()\n\t\t\t"

/-- `ExecuteDetectionRules` of `internal/browser/version.go`: the result and
the page state the evaluations left. -/
def ExecuteDetectionRules {σ : Type} (b : Browser σ) : List DetectionRule → σ → Bool × σ
  | [], s => (false, s)
  | rule :: rest, s =>
    if rule.Typ = "dom-selector" then
      -- Check if DOM element exists
      match b.evalBool s (selectorScript rule.Selector) with
      | (Except.ok true, s1) => (true, s1)
      | (_, s1) => ExecuteDetectionRules b rest s1
    else if rule.Typ = "js-eval" then
      -- Execute JavaScript and check for truthy result
      match b.evalBool s rule.Query with
      | (Except.ok true, s1) => (true, s1)
      | (_, s1) => ExecuteDetectionRules b rest s1
    else ExecuteDetectionRules b rest s

/-- The value `ExtractVersion` returns for a `dom-attribute` rule whose
attribute value `version` is non-empty: the lines from
`if rule.Pattern != ""` to `return version`. -/
def applyPattern (re : Regexp) (pattern version : String) : String :=
  if pattern ≠ "" then
    match re.Compile pattern with
    | some findStringSubmatch =>
      match findStringSubmatch version with
      | _ :: group1 :: _ => group1 -- len(matches) > 1: return first capture group
      | _ => version
    | none => version
  else version

/-- `ExtractVersion` of `internal/browser/version.go`: the result and the page
state the evaluations left. -/
def ExtractVersion {σ : Type} (b : Browser σ) (re : Regexp) :
    List VersionExtraction → σ → String × σ
  | [], s => ("", s)
  | rule :: rest, s =>
    if rule.Typ = "dom-attribute" then
      -- Get attribute value from DOM element
      match b.evalString s (attributeScript rule.Selector rule.Attribute) with
      | (Except.ok version, s1) =>
        if version ≠ "" then (applyPattern re rule.Pattern version, s1)
        else ExtractVersion b re rest s1
      | (Except.error _, s1) => ExtractVersion b re rest s1
    else if rule.Typ = "js-eval" then
      -- Execute JavaScript to get version
      match b.evalString s rule.Query with
      | (Except.ok version, s1) =>
        if version ≠ "" then (version, s1)
        else ExtractVersion b re rest s1
      | (Except.error _, s1) => ExtractVersion b re rest s1
    else ExtractVersion b re rest s

/-- The script `ExecuteDetectionRules` hands to the browser for a rule; `none`
for a rule of a type it does not know, which it skips. -/
def DetectionRule.script (rule : DetectionRule) : Option String :=
  if rule.Typ = "dom-selector" then some (selectorScript rule.Selector)
  else if rule.Typ = "js-eval" then some rule.Query
  else none

/-- A stub page: every script is answered from the tables `answer` (boolean
results) and `text` (string results), and the page state is the list of the
scripts evaluated so far, oldest first. -/
def recordingPage (answer : String → Except String Bool)
    (text : String → Except String String) : Browser (List String) where
  navigate := fun _ => Except.ok []
  evalBool := fun log script => (answer script, log ++ [script])
  evalString := fun log script => (text script, log ++ [script])

/-- Four boolean stub rules. -/
def stubRules : List DetectionRule :=
  [{ Typ := "dom-selector", Selector := "#a" },
   { Typ := "js-eval", Query := "window.b" },
   { Typ := "js-eval", Query := "window.c" },
   { Typ := "dom-selector", Selector := "#d" }]

/-- The stub answers under which `stubRules` evaluate to false, false, true,
true. -/
def stubAnswer (script : String) : Except String Bool :=
  Except.ok (decide (script = "window.c" ∨ script = selectorScript "#d"))

/-- Stub answers with a failing script: `window.broken` raises an exception,
`window.c` is true and every other script is false. -/
def erringAnswer (script : String) : Except String Bool :=
  if script = "window.broken" then Except.error "script exception"
  else Except.ok (decide (script = "window.c"))

/-- The results of Go `regexp` on the patterns and subjects used in the examples
of this file: `v(\d+\.\d+\.\d+)` finds `v2.3.1` with group `2.3.1` in
`v2.3.1-beta` and finds nothing in `latest`; `v([\d.]*)` finds `v` with an empty
group in `v-beta`; `\d+` (no capture group) finds `7` in `build 7`.  Subjects
that are not listed get no match and other patterns do not compile. -/
def stubRegexp : Regexp where
  Compile := fun pattern =>
    if pattern = "v(\\d+\\.\\d+\\.\\d+)" then
      some (fun subject => if subject = "v2.3.1-beta" then ["v2.3.1", "2.3.1"] else [])
    else if pattern = "v([\\d.]*)" then
      some (fun subject => if subject = "v-beta" then ["v", ""] else [])
    else if pattern = "\\d+" then
      some (fun subject => if subject = "build 7" then ["7"] else [])
    else none

/-- A stub page for version rules: the `content` attribute of the generator
`meta` element is `generator`, `window.appVersion` is `1.2`, and every other
string script fails. -/
def versionText (generator : String) (script : String) : Except String String :=
  if script = attributeScript "meta[name=generator]" "content" then Except.ok generator
  else if script = "window.appVersion" then Except.ok "1.2"
  else Except.error "not defined"

/-- The version rule reading the generator `meta` element, with a pattern. -/
def generatorRule (pattern : String) : VersionExtraction :=
  { Typ := "dom-attribute", Selector := "meta[name=generator]", Attribute := "content",
    Pattern := pattern }

/-- The version rule evaluating `window.appVersion`. -/
def appVersionRule : VersionExtraction :=
  { Typ := "js-eval", Query := "window.appVersion" }

/-! ## internal/browser: the detector -/

/-- Modelled from the spec: the declaration of the browser-rule descriptor of a
technology (the struct behind `fingerprint.Browser`) is not among the sources;
it holds the detection rules and the version rules, both ordered. -/
structure BrowserRules where
  Detection : List DetectionRule := []
  Version : List VersionExtraction := []
  deriving DecidableEq, Repr

/-- Modelled from the spec: the declaration of `wappalyzer.Fingerprint` is not
among the sources; `Browser` is the pointer to the browser-rule descriptor,
`none` for `nil`. -/
structure Fingerprint where
  Browser : Option BrowserRules := none
  deriving DecidableEq, Repr

/-- A Go `map[string]string`, here the technologies map name -> version:
`m k = none` when `k` is not a key. -/
abbrev Technologies := String → Option String

/-- The empty map of `make(map[string]string)`. -/
def Technologies.empty : Technologies := fun _ => none

/-- The assignment `m[k] = v`. -/
def Technologies.set (m : Technologies) (k v : String) : Technologies :=
  fun k1 => if k1 = k then some v else m k1

/-- The body of the `range fingerprints.Apps` loop of `EnhanceWithVersions` for
one entry: the technologies map and the page state after it. -/
def enhanceApp {σ : Type} (b : Browser σ) (re : Regexp) (appName : String)
    (fingerprint : Fingerprint) (technologies : Technologies) (s : σ) : Technologies × σ :=
  match fingerprint.Browser with
  -- Skip if no browser detection configured
  | none => (technologies, s)
  | some browser =>
    -- Check if already detected by static analysis
    let alreadyDetected := (technologies appName).isSome
    -- Run detection if not already detected
    let detected :=
      if !alreadyDetected && decide (browser.Detection.length > 0) then
        ExecuteDetectionRules b browser.Detection s
      else (alreadyDetected, s)
    -- If detected (either already or via browser), try to extract version
    if detected.1 then
      -- If version extraction rules exist, try them
      let version :=
        if browser.Version.length > 0 then ExtractVersion b re browser.Version detected.2
        else ("", detected.2)
      -- Update or add technology
      if version.1 ≠ "" then (technologies.set appName version.1, version.2)
      -- Add without version if detected but no version found
      else if !alreadyDetected then (technologies.set appName "", version.2)
      else (technologies, version.2)
    else (technologies, detected.2)

/-- The `range fingerprints.Apps` loop of `EnhanceWithVersions`; the list is the
content of the map `fingerprints.Apps` in the order the loop visits it. -/
def enhanceApps {σ : Type} (b : Browser σ) (re : Regexp) :
    List (String × Fingerprint) → Technologies → σ → Technologies × σ
  | [], technologies, s => (technologies, s)
  | (appName, fingerprint) :: rest, technologies, s =>
    let r := enhanceApp b re appName fingerprint technologies s
    enhanceApps b re rest r.1 r.2

/-- `Detector.EnhanceWithVersions` of `internal/browser/detector.go`: the
returned error (`none` for `nil`) and the technologies map, which the Go code
updates in place, as it is when the call returns. -/
def EnhanceWithVersions {σ : Type} (b : Browser σ) (re : Regexp) (url : String)
    (technologies : Technologies) (apps : List (String × Fingerprint)) :
    Option String × Technologies :=
  -- Navigate and wait for page to be ready
  match b.navigate url with
  | Except.error err => (some err, technologies)
  | Except.ok s => (none, (enhanceApps b re apps technologies s).1)

/-! ## cmd/wappalyzer -/

/-- Go `strings.Split(s, sep)` for a separator of one character: the fields of
`s` between the occurrences of `sep`. -/
def splitFields (sep : Char) : List Char → List (List Char)
  | [] => [[]]
  | c :: cs =>
    if c = sep then [] :: splitFields sep cs
    else
      match splitFields sep cs with
      | field :: fields => (c :: field) :: fields
      | [] => [[c]]

/-- Go `strings.Split(s, ":")`. -/
def SplitColon (s : String) : List String :=
  (splitFields ':' s.data).map String.mk

/-- `formatSimpleFingerprints` of `cmd/wappalyzer/format.go`, from the result map
built so far; the list is the key set of the `map[string]struct{}` in the order
the `range` loop visits it. -/
def formatSimpleFrom : List String → Technologies → Technologies
  | [], result => result
  | tech :: rest, result =>
    match SplitColon tech with
    | [name, version] => formatSimpleFrom rest (result.set name version)
    | _ => formatSimpleFrom rest (result.set tech "")

/-- `formatSimpleFingerprints` of `cmd/wappalyzer/format.go`. -/
def formatSimpleFingerprints (fingerprints : List String) : Technologies :=
  formatSimpleFrom fingerprints Technologies.empty

/-- Response headers, Go `map[string][]string`. -/
abbrev Headers := List (String × List String)

/-- A response body, Go `[]byte`. -/
abbrev Body := List Nat

/-- The `net/http` calls of `Client.Fetch`; an error is the text of the Go
`error`. -/
structure Transport where
  /-- `http.NewRequest("GET", url, nil)`. -/
  NewRequest : String → Except String Request
  /-- `c.Client.Do(req)`, with the redirect policy of `NewClient` installed:
  the response headers and the unread body, or the error. -/
  Do : Request → Except String (Headers × Body)
  /-- `io.ReadAll(resp.Body)`. -/
  ReadAll : Body → Except String Body

/-- `Client.Fetch` of `internal/http/client.go`. -/
def Fetch (http : Transport) (userAgent : String) (url : String) :
    Except String (Headers × Body) :=
  match http.NewRequest url with
  | Except.error err => Except.error ("invalid URL: " ++ err)
  | Except.ok req =>
    let req := { req with UserAgent := userAgent }
    match http.Do req with
    | Except.error err => Except.error ("request failed: " ++ err)
    | Except.ok (header, respBody) =>
      match http.ReadAll respBody with
      | Except.error err => Except.error ("failed to read response: " ++ err)
      | Except.ok body => Except.ok (header, body)

/-- `fetchURLStatic` of `cmd/wappalyzer/static.go`. -/
def fetchURLStatic (http : Transport) (userAgent : String) (url : String) :
    Except String (Headers × Body) :=
  Fetch http userAgent url

/-- Modelled from the spec: the type `wappalyzer.Wappalyze` is not among the
sources.  It is the signature oracle: `Fingerprint` is
match(headers, body), the set of matched technologies (entries `name` or
`name:version`) in the order a `range` loop visits it, and `GetFingerprints` the
map of all known technologies with their browser-rule descriptors, in the order
a `range` loop visits it. -/
structure Wappalyze where
  Fingerprint : Headers → Body → List String
  GetFingerprints : List (String × Wappalyzergo.Fingerprint)

/-- `ScanResult` of `cmd/wappalyzer`: `Error` is empty when there is none. -/
structure ScanResult where
  URL : String
  Technologies : Technologies
  Mode : String := ""
  Error : String := ""

/-- `scanURL` of `cmd/wappalyzer/scanner.go`.  `staticMode` and `userAgent` are
the command-line flags; the warning written to standard error when the browser
phase fails is not part of the result. -/
def scanURL {σ : Type} (http : Transport) (b : Browser σ) (re : Regexp)
    (staticMode : Bool) (userAgent : String) (url : String)
    (wappalyzerClient : Wappalyze) : ScanResult :=
  let result : ScanResult := { URL := url, Technologies := Technologies.empty }
  -- Always use static fetch for initial HTML/headers (fast)
  match fetchURLStatic http userAgent url with
  | Except.error err => { result with Error := err }
  | Except.ok (headers, body) =>
    -- Get technologies from static analysis
    let fingerprints := wappalyzerClient.Fingerprint headers body
    let result := { result with Technologies := formatSimpleFingerprints fingerprints }
    -- Enhance with browser-based detection if not in static mode
    if !staticMode then
      let enhanced := EnhanceWithVersions b re url result.Technologies
        wappalyzerClient.GetFingerprints
      { result with Technologies := enhanced.2, Mode := "hybrid" }
    else { result with Mode := "static" }

/-! ## Stub collaborators for the examples -/

/-- A browser whose navigation fails: no page is ever reached. -/
def offlinePage : Browser Unit where
  navigate := fun _ => Except.error "context deadline exceeded"
  evalBool := fun s _ => (Except.error "no page", s)
  evalString := fun s _ => (Except.error "no page", s)

/-- A transport that answers every URL with the header `X-Powered-By: PHP/8.1`
and an empty body. -/
def stubTransport : Transport where
  NewRequest := fun _ => Except.ok { URL := ⟨"example.com"⟩ }
  Do := fun _ => Except.ok ([("X-Powered-By", ["PHP/8.1"])], [])
  ReadAll := fun body => Except.ok body

/-- Browser rules of two technologies: `WordPress` has the generator version
rule with the pattern `v(\d+\.\d+\.\d+)`, `jQuery` is detected by `window.c` and
takes its version from `window.appVersion`; `Nginx` declares no browser
rules. -/
def stubApps : List (String × Fingerprint) :=
  [("WordPress", { Browser := some { Version := [generatorRule "v(\\d+\\.\\d+\\.\\d+)"] } }),
   ("jQuery", { Browser := some { Detection := [{ Typ := "js-eval", Query := "window.c" }],
                                  Version := [appVersionRule] } }),
   ("Nginx", { Browser := none })]

/-- A signature oracle that matches `PHP:8.1` on every response and knows the
technologies of `stubApps`. -/
def stubClient : Wappalyze where
  Fingerprint := fun _ _ => ["PHP:8.1"]
  GetFingerprints := stubApps

/-- A static baseline with `WordPress` at version `1.0` and `Nginx` without
version. -/
def stubBaseline : Technologies :=
  (Technologies.empty.set "WordPress" "1.0").set "Nginx" ""

/-- A transport on which every request fails in `Client.Do`. -/
def failingTransport : Transport where
  NewRequest := fun _ => Except.ok { URL := ⟨"unreachable.example"⟩ }
  Do := fun _ => Except.error "dial tcp: no such host"
  ReadAll := fun body => Except.ok body

/-- The match-set entry of a technology, as the claim on static mode writes it:
`name` alone when the oracle gives no version and `name:version` otherwise. -/
def renderEntry (entry : String × Option String) : String :=
  match entry.2 with
  | none => entry.1
  | some version => entry.1 ++ ":" ++ version

/-- The map that assigns, entry by entry in list order, to each name its version,
and the empty string when the entry has no version. -/
def setEntries : List (String × Option String) → Technologies → Technologies
  | [], m => m
  | entry :: rest, m => setEntries rest (m.set entry.1 (entry.2.getD ""))

/-! ## cmd/wappalyzer: input -/

/-- Go `unicode.IsSpace`: the white space characters of Unicode. -/
def isSpace (c : Char) : Bool :=
  c = '\t' || c = '\n' || c.toNat = 0x0B || c.toNat = 0x0C || c = '\r' || c = ' '
    || c.toNat = 0x85 || c.toNat = 0xA0 || c.toNat = 0x1680
    || (decide (0x2000 ≤ c.toNat) && decide (c.toNat ≤ 0x200A))
    || c.toNat = 0x2028 || c.toNat = 0x2029 || c.toNat = 0x202F || c.toNat = 0x205F
    || c.toNat = 0x3000

/-- Go `strings.TrimSpace`: `s` without its leading and trailing white space. -/
def TrimSpace (s : String) : String :=
  ⟨((s.data.dropWhile isSpace).reverse.dropWhile isSpace).reverse⟩

/-- Go `strings.HasPrefix`. -/
def HasPrefix (s pre : String) : Bool :=
  pre.data.isPrefixOf s.data

/-- A `bufio.Scanner` run to its end: the texts of the successful `Scan` calls,
in order, and the error `scanner.Err()` reports afterwards (`none` for
`nil`). -/
structure LineScanner where
  lines : List String
  err : Option String := none

/-- The scanning loop that `readURLsFromStdin` and `readURLsFromFile` both
contain: every trimmed line that is neither empty nor a `#` comment is
appended to `urls`. -/
def scanURLLines : List String → List String
  | [] => []
  | text :: rest =>
    let line := TrimSpace text
    if line ≠ "" ∧ ¬ (HasPrefix line "#" = true) then line :: scanURLLines rest
    else scanURLLines rest

/-- What `cmd/wappalyzer/input.go` reads from the operating system. -/
structure Inputs where
  /-- `os.Stdin.Stat()`: whether standard input is a character device (a
  terminal), or the error of the call. -/
  stdinIsCharDevice : Except String Bool
  /-- The scanner over `os.Stdin`. -/
  stdin : LineScanner
  /-- `os.Open(path)` followed by the scanner over the file. -/
  openFile : String → Except String LineScanner

/-- `readURLsFromStdin` of `cmd/wappalyzer/input.go`. -/
def readURLsFromStdin (os : Inputs) : Except String (List String) :=
  let urls := scanURLLines os.stdin.lines
  match os.stdin.err with
  | some err => Except.error ("error reading from stdin: " ++ err)
  | none => Except.ok urls

/-- `readURLsFromFile` of `cmd/wappalyzer/input.go`. -/
def readURLsFromFile (os : Inputs) (path : String) : Except String (List String) :=
  match os.openFile path with
  | Except.error err => Except.error ("error opening file: " ++ err)
  | Except.ok file =>
    let urls := scanURLLines file.lines
    match file.err with
    | some err => Except.error ("error reading file: " ++ err)
    | none => Except.ok urls

/-- `hasStdinData` of `cmd/wappalyzer/input.go`. -/
def hasStdinData (os : Inputs) : Bool :=
  match os.stdinIsCharDevice with
  | Except.error _ => false
  | Except.ok isCharDevice => !isCharDevice

/-- `getURLs` of `cmd/wappalyzer/input.go`; the notes written to standard error
are not part of the result. -/
def getURLs (os : Inputs) (listFile : String) (args : List String) :
    Except String (List String) :=
  -- Check for stdin input first (highest priority)
  if hasStdinData os then readURLsFromStdin os
  -- Check for file list
  else if listFile ≠ "" then readURLsFromFile os listFile
  -- Use command-line arguments
  else if args.length > 0 then Except.ok args
  -- No input source
  else Except.error "no URLs provided (use command-line args, -l flag, or pipe input)"

/-- Standard input is a pipe that carries a comment and a blank line, but no
URL. -/
def pipedWithoutURLs : Inputs where
  stdinIsCharDevice := Except.ok false
  stdin := { lines := ["# targets", "   "] }
  openFile := fun _ => Except.error "no such file or directory"

/-- Standard input is a terminal, and every file holds one comment line. -/
def commentOnlyFile : Inputs where
  stdinIsCharDevice := Except.ok true
  stdin := { lines := [] }
  openFile := fun _ => Except.ok { lines := ["# no targets yet"] }

/-! ## cmd/wappalyzer: the scan scheduler -/

/-- The method of the `OutputWriter` interface that `scanURLsConcurrent` calls,
over the state `ω` of the sink: the returned error (`none` for `nil`) and the
state after the call. -/
structure OutputWriter (ω : Type) where
  WriteResult : ω → ScanResult → Option String × ω

/-- The variables of the collecting part of `scanURLsConcurrent`. -/
structure DrainState (ω : Type) where
  /-- The state of the sink behind `writer`. -/
  writer : ω
  /-- The variable `count`. -/
  count : Nat := 0
  /-- The content of the channel `errorChan` (capacity 1); the `select` that
  ends the function returns it, and returns `nil` when it is empty. -/
  errorChan : Option String := none
  /-- Whether the loop over `resultChan` was left by `break`. -/
  broke : Bool := false
  /-- The arguments of the `WriteResult` calls made so far, in order.  No
  step reads this field. -/
  written : List ScanResult := []

/-- One pass through the body of the `for result := range resultChan` loop of
`scanURLsConcurrent`, for the received `result`. -/
def drainStep {ω : Type} (w : OutputWriter ω) (d : DrainState ω) (result : ScanResult) :
    DrainState ω :=
  match w.WriteResult d.writer result with
  | (some err, s1) =>
    -- errorChan <- fmt.Errorf("failed to write result: %w", err); break
    { d with writer := s1, written := d.written ++ [result],
             errorChan := some ("failed to write result: " ++ err), broke := true }
  | (none, s1) =>
    { d with writer := s1, written := d.written ++ [result], count := d.count + 1 }

/-- The `for result := range resultChan` loop of `scanURLsConcurrent` on the
results that the channel hands over, in order, until it is closed. -/
def drainLoop {ω : Type} (w : OutputWriter ω) : List ScanResult → DrainState ω → DrainState ω
  | [], d => d
  | result :: rest, d =>
    let d1 := drainStep w d result
    if d1.broke = true then d1 else drainLoop w rest d1

/-- The sink state after writing all of `results`, when no write fails. -/
def writeAll {ω : Type} (w : OutputWriter ω) : List ScanResult → ω → Option ω
  | [], s => some s
  | result :: rest, s =>
    match w.WriteResult s result with
    | (none, s1) => writeAll w rest s1
    | (some _, _) => none

/-- A worker goroutine of `scanURLsConcurrent`. -/
inductive Worker where
  /-- At `for url := range urlChan`, about to receive. -/
  | receiving
  /-- Holds `result := scanURL(url, wappalyzerClient)`, at `resultChan <- result`. -/
  | sending (result : ScanResult)
  /-- Left the loop; `wg.Done()` has run. -/
  | done

/-- The result a worker holds and has not sent yet. -/
def Worker.held : Worker → List ScanResult
  | Worker.sending result => [result]
  | _ => []

/-- Whether a worker has left its loop. -/
def Worker.isDone : Worker → Bool
  | Worker.done => true
  | _ => false

/-- The results held by the workers of a pool. -/
def pending : List Worker → List ScanResult
  | [] => []
  | worker :: rest => worker.held ++ pending rest

/-- The state of a run of `scanURLsConcurrent`: the channels, the goroutines and
the variables of the collecting loop. -/
structure Sched (ω : Type) where
  /-- The URLs still in the closed channel `urlChan`, next first. -/
  urlChan : List String
  /-- The worker goroutines, `concurrency` of them. -/
  workers : List Worker
  /-- The buffer of `resultChan` (capacity `concurrency`), oldest first. -/
  resultChan : List ScanResult := []
  /-- Whether the goroutine that waits on `wg` has closed `resultChan`. -/
  closed : Bool := false
  /-- The collecting loop of the calling goroutine. -/
  drain : DrainState ω
  /-- Whether the collecting loop has ended, so that `scanURLsConcurrent`
  returns the content of `errorChan`. -/
  returned : Bool := false

/-- The steps the Go scheduler can choose between. -/
inductive Event where
  /-- Worker `i` receives the next URL from `urlChan` and scans it. -/
  | claim (i : Nat)
  /-- Worker `i` completes `resultChan <- result`. -/
  | send (i : Nat)
  /-- Worker `i` finds `urlChan` empty and leaves its loop. -/
  | exit (i : Nat)
  /-- `wg.Wait()` returns and `resultChan` is closed. -/
  | close
  /-- The collecting loop receives the oldest result and runs its body. -/
  | receive
  /-- The collecting loop finds `resultChan` closed and empty and ends. -/
  | finish
  deriving DecidableEq, Repr

/-- One step of `scanURLsConcurrent`; `none` when the step is not possible in the
state (the goroutine is blocked or elsewhere).  `scan` is
`scanURL(url, wappalyzerClient)` as a function of the URL, and `concurrency`
the capacity of `resultChan`. -/
def Sched.step {ω : Type} (scan : String → ScanResult) (w : OutputWriter ω)
    (concurrency : Nat) (st : Sched ω) : Event → Option (Sched ω)
  | Event.claim i =>
    match st.workers[i]?, st.urlChan with
    | some Worker.receiving, url :: rest =>
      some { st with urlChan := rest, workers := st.workers.set i (Worker.sending (scan url)) }
    | _, _ => none
  | Event.send i =>
    match st.workers[i]? with
    | some (Worker.sending result) =>
      if st.resultChan.length < concurrency then
        some { st with resultChan := st.resultChan ++ [result],
                       workers := st.workers.set i Worker.receiving }
      else none
    | _ => none
  | Event.exit i =>
    match st.workers[i]?, st.urlChan with
    | some Worker.receiving, [] => some { st with workers := st.workers.set i Worker.done }
    | _, _ => none
  | Event.close =>
    if st.closed = false ∧ st.workers.all Worker.isDone = true then
      some { st with closed := true }
    else none
  | Event.receive =>
    if st.returned = true then none
    else
      match st.resultChan with
      | result :: rest =>
        let d := drainStep w st.drain result
        some { st with resultChan := rest, drain := d, returned := d.broke }
      | [] => none
  | Event.finish =>
    if st.returned = false ∧ st.closed = true ∧ st.resultChan.isEmpty = true then
      some { st with returned := true }
    else none

/-- A run of `scanURLsConcurrent` under a schedule, the list of the steps taken;
`none` when a step of the schedule is not possible. -/
def Sched.exec {ω : Type} (scan : String → ScanResult) (w : OutputWriter ω)
    (concurrency : Nat) : List Event → Sched ω → Option (Sched ω)
  | [], st => some st
  | e :: rest, st =>
    match Sched.step scan w concurrency st e with
    | some st1 => Sched.exec scan w concurrency rest st1
    | none => none

/-- A sink with room for `room` results: every later write fails. -/
def boundedWriter (room : Nat) : OutputWriter (List String) where
  WriteResult := fun s result =>
    if s.length < room then (none, s ++ [result.URL])
    else (some "no space left on device", s)

/-- The scan of the stub collaborators in static mode, as a function of the
URL. -/
def stubScan (url : String) : ScanResult :=
  scanURL stubTransport offlinePage stubRegexp true "Mozilla/5.0" url stubClient

/-- What holds in every state of a run of `scanURLsConcurrent urls` with
`concurrency` workers. -/
structure Sched.Inv {ω : Type} (scan : String → ScanResult) (urls : List String)
    (concurrency : Nat) (st : Sched ω) : Prop where
  /-- There are `concurrency` workers. -/
  poolSize : st.workers.length = concurrency
  /-- Every result is in exactly one place: still to be scanned, held by a
  worker, in `resultChan`, or handed to the sink. -/
  accounted :
    ((st.urlChan.map scan : List ScanResult) : Multiset ScanResult) + ↑(pending st.workers)
        + ↑st.resultChan + ↑st.drain.written
      = ↑(urls.map scan)
  /-- `resultChan` is closed only when all workers are done. -/
  closedDone : st.closed = true → st.workers.all Worker.isDone = true
  /-- A worker is done only when `urlChan` is empty. -/
  doneEmpty : ∀ (i : Nat), st.workers[i]? = some Worker.done → st.urlChan = []
  /-- The loop is left by `break` only with an error in `errorChan`. -/
  brokeError : st.drain.broke = true → st.drain.errorChan ≠ none
  /-- The function returns either with an error or after `resultChan` was
  closed and emptied. -/
  returnedWhy : st.returned = true →
    st.drain.errorChan ≠ none ∨ (st.closed = true ∧ st.resultChan = [])

/-! ## cmd/wappalyzer: the detailed pipeline -/

/-- Modelled from the spec: the declaration of `wappalyzer.AppInfo` is not among
the sources; it is the optional metadata of a matched technology, and the
fields are the ones `formatDetailedFingerprints` reads. -/
structure AppInfo where
  Description : String := ""
  Website : String := ""
  Categories : List String := []
  deriving DecidableEq, Repr

/-- `TechnologyDetails` of `cmd/wappalyzer/main.go`. -/
structure TechnologyDetails where
  Version : String := ""
  Categories : List String := []
  Description : String := ""
  Website : String := ""
  deriving DecidableEq, Repr

/-- A Go `map[string]TechnologyDetails`: `m k = none` when `k` is not a key. -/
abbrev DetailedTechnologies := String → Option TechnologyDetails

/-- The assignment `m[k] = details`. -/
def DetailedTechnologies.set (m : DetailedTechnologies) (k : String)
    (details : TechnologyDetails) : DetailedTechnologies :=
  fun k1 => if k1 = k then some details else m k1

/-- The name -> version projection of a detailed technologies map. -/
def DetailedTechnologies.versions (m : DetailedTechnologies) : Technologies :=
  fun name => (m name).map (fun details => details.Version)

/-- `formatDetailedFingerprints` of `cmd/wappalyzer/format.go`, from the result
map built so far; the list is the content of the `map[string]wappalyzer.AppInfo`
in the order the `range` loop visits it.  `strings.Split` returns at least one
part, so `parts[0]` exists. -/
def formatDetailedFrom :
    List (String × AppInfo) → DetailedTechnologies → DetailedTechnologies
  | [], result => result
  | (tech, info) :: rest, result =>
    let parts := SplitColon tech
    let name := parts.headD ""
    let version :=
      match parts with
      | [_, v] => v -- len(parts) == 2
      | _ => ""
    formatDetailedFrom rest
      (result.set name
        { Version := version, Categories := info.Categories, Description := info.Description,
          Website := info.Website })

/-- `formatDetailedFingerprints` of `cmd/wappalyzer/format.go`. -/
def formatDetailedFingerprints (fingerprints : List (String × AppInfo)) :
    DetailedTechnologies :=
  formatDetailedFrom fingerprints (fun _ => none)

/-- Modelled from the spec: the method `FingerprintWithInfo` of
`wappalyzer.Wappalyze` is not among the sources.  It is match(headers, body)
with the metadata of every matched technology, in the order a `range` loop
visits the returned map. -/
structure WappalyzeInfo extends Wappalyze where
  FingerprintWithInfo : Headers → Body → List (String × AppInfo)

/-- `DetailedResult` of `cmd/wappalyzer/main.go`; `Technologies` is the empty map
when the Go field is `nil`. -/
structure DetailedResult where
  URL : String
  Technologies : DetailedTechnologies := fun _ => none
  Mode : String := ""
  Error : String := ""

/-- The body of the loop of `processURLsDetailed` in `cmd/wappalyzer/main.go` for
one URL: the value of `result` that is appended to `results` or printed.  The
two `range` loops over the technologies maps touch only the key they visit, so
they are written key by key. -/
def processURLDetailed {σ : Type} (http : Transport) (b : Browser σ) (re : Regexp)
    (staticMode : Bool) (userAgent : String) (url : String)
    (wappalyzerClient : WappalyzeInfo) : DetailedResult :=
  let mode := if staticMode then "static" else "hybrid"
  let result : DetailedResult := { URL := url, Mode := mode }
  -- Always use static fetch first
  match fetchURLStatic http userAgent url with
  | Except.error err => { result with Error := err }
  | Except.ok (headers, body) =>
    let fingerprints := wappalyzerClient.FingerprintWithInfo headers body
    let result := { result with Technologies := formatDetailedFingerprints fingerprints }
    -- Enhance with browser detection if not in static mode
    if !staticMode then
      -- Convert detailed results to simple map for browser enhancement
      let simpleTech : Technologies := result.Technologies.versions
      let enhanced := EnhanceWithVersions b re url simpleTech
        wappalyzerClient.GetFingerprints
      -- Update result with enhanced versions
      { result with
        Technologies := fun name =>
          match enhanced.2 name, result.Technologies name with
          | some version, some details => some { details with Version := version }
          | _, old => old }
    else result

/-- `processURLsDetailed` of `cmd/wappalyzer/main.go`: the results of the URLs, in
order. -/
def processURLsDetailed {σ : Type} (http : Transport) (b : Browser σ) (re : Regexp)
    (staticMode : Bool) (userAgent : String) (urls : List String)
    (wappalyzerClient : WappalyzeInfo) : List DetailedResult :=
  urls.map (fun url => processURLDetailed http b re staticMode userAgent url wappalyzerClient)

/-- The stub oracle with metadata: it matches `PHP:8.1` on every response. -/
def stubClientInfo : WappalyzeInfo where
  toWappalyze := stubClient
  FingerprintWithInfo := fun _ _ =>
    [("PHP:8.1", { Description := "PHP is a scripting language.", Website := "https://php.net",
                   Categories := ["Programming languages"] })]

/-- An oracle that matches the single entry `a:b:c`, which has two colons. -/
def twoColonClient : WappalyzeInfo where
  Fingerprint := fun _ _ => ["a:b:c"]
  GetFingerprints := []
  FingerprintWithInfo := fun _ _ => [("a:b:c", {})]

/-- An oracle that matches `PHP:8.1` and `PHP:7`; the two maps it returns are
visited in different orders. -/
def twoVersionsClient : WappalyzeInfo where
  Fingerprint := fun _ _ => ["PHP:8.1", "PHP:7"]
  GetFingerprints := []
  FingerprintWithInfo := fun _ _ => [("PHP:7", {}), ("PHP:8.1", {})]

/-- A signature oracle whose single match is `Foo:1:2`: the technology `Foo` with
the version `1:2`, which contains a colon. -/
def colonVersionOracle : Wappalyze where
  Fingerprint := fun _ _ => ["Foo:1:2"]
  GetFingerprints := []

/-- A signature oracle whose match set holds the two entries `PHP:8.1` and
`PHP:7`, visited in this order. -/
def twoEntriesOracle : Wappalyze where
  Fingerprint := fun _ _ => ["PHP:8.1", "PHP:7"]
  GetFingerprints := []

/-! ## Theorems -/

set_option maxRecDepth 100000

theorem TrimPrefix_append (pre s : String) : TrimPrefix (pre ++ s) pre = s := by
  unfold TrimPrefix
  have h : pre.data.isPrefixOf (pre ++ s).data = true := by
    rw [List.isPrefixOf_iff_prefix]
    exact ⟨s.data, by simp⟩
  rw [if_pos h]
  simp [String.ext_iff]

theorem TrimPrefix_cases (s pre : String) :
    TrimPrefix s pre = s ∨ s = pre ++ TrimPrefix s pre := by
  unfold TrimPrefix
  by_cases h : pre.data.isPrefixOf s.data = true
  · right
    rw [if_pos h]
    rw [List.isPrefixOf_iff_prefix] at h
    obtain ⟨t, ht⟩ := h
    apply String.ext
    simp [← ht]
  · left
    rw [if_neg h]

theorem IsSafeDomainRedirect_iff_www (toLower : String → String) (original new : URL) :
    IsSafeDomainRedirect toLower original new = true ↔
      (toLower original.Host = toLower new.Host
        ∨ toLower original.Host = "www." ++ toLower new.Host
        ∨ toLower new.Host = "www." ++ toLower original.Host) := by
  unfold IsSafeDomainRedirect
  generalize toLower original.Host = a
  generalize toLower new.Host = b
  constructor
  · intro h
    by_cases hab : a = b
    · exact Or.inl hab
    · simp only [if_neg hab] at h
      by_cases h1 : TrimPrefix a "www." = TrimPrefix b "www."
      · rcases TrimPrefix_cases a "www." with ha | ha <;>
          rcases TrimPrefix_cases b "www." with hb | hb
        · exact Or.inl (by rw [← ha, ← hb, h1])
        · right; right
          rw [← ha, h1]; exact hb
        · right; left
          rw [← hb, ← h1]; exact ha
        · exact Or.inl (by rw [ha, hb, h1])
      · simp only [if_neg h1] at h
        by_cases h2 : TrimPrefix a "www." = b ∨ TrimPrefix b "www." = a
        · rcases h2 with h2 | h2
          · rcases TrimPrefix_cases a "www." with ha | ha
            · exact Or.inl (by rw [← ha, h2])
            · right; left
              rw [← h2]; exact ha
          · rcases TrimPrefix_cases b "www." with hb | hb
            · exact Or.inl (by rw [← hb, h2])
            · right; right
              rw [← h2]; exact hb
        · simp [if_neg h2] at h
  · intro h
    by_cases hab : a = b
    · simp [hab]
    · simp only [if_neg hab]
      rcases h with h | h | h
      · exact absurd h hab
      · have h2 : TrimPrefix a "www." = b := by rw [h]; exact TrimPrefix_append _ _
        by_cases h1 : TrimPrefix a "www." = TrimPrefix b "www."
        · simp [h1]
        · simp [h1, h2]
      · have h2 : TrimPrefix b "www." = a := by rw [h]; exact TrimPrefix_append _ _
        by_cases h1 : TrimPrefix a "www." = TrimPrefix b "www."
        · simp [h1]
        · simp [h1, h2]

theorem IsSafeDomainRedirect_iff_trim (toLower : String → String) (original new : URL) :
    IsSafeDomainRedirect toLower original new = true ↔
      (toLower original.Host = toLower new.Host
        ∨ TrimPrefix (toLower original.Host) "www." = toLower new.Host
        ∨ toLower original.Host = TrimPrefix (toLower new.Host) "www."
        ∨ TrimPrefix (toLower original.Host) "www." = TrimPrefix (toLower new.Host) "www.") := by
  unfold IsSafeDomainRedirect
  generalize toLower original.Host = a
  generalize toLower new.Host = b
  by_cases hab : a = b
  · simp [hab]
  · by_cases h1 : TrimPrefix a "www." = TrimPrefix b "www."
    · simp [h1]
    · by_cases h2 : TrimPrefix a "www." = b
      · simp [h2]
      · by_cases h3 : TrimPrefix b "www." = a
        · simp [h3]
        · have h4 : ¬ a = TrimPrefix b "www." := fun h => h3 h.symm
          simp [hab, h1, h2, h3, h4]

/-! ### C1 -/

/-- C1, as stated, fails: the hosts `Example.com` and `example.com` are different
strings, and remain different when one leading `www.` is stripped from either
of them, yet `IsSafeDomainRedirect` allows the redirect, because it compares the
lower-cased hosts. -/
theorem IsSafeDomainRedirect_ignores_case :
    IsSafeDomainRedirect asciiToLower ⟨"Example.com"⟩ ⟨"example.com"⟩ = true ∧
      ¬ ("Example.com" = "example.com"
          ∨ TrimPrefix "Example.com" "www." = "example.com"
          ∨ "Example.com" = TrimPrefix "example.com" "www."
          ∨ TrimPrefix "Example.com" "www." = TrimPrefix "example.com" "www.") := by
  decide

/-- C1, amended: for every pair of URLs, `IsSafeDomainRedirect original new` is
true if and only if the two lower-cased host strings are equal or become equal
after stripping one leading `www.` from either side, that is, if and only if
the lower-cased hosts are equal or one of them is `www.` followed by the other;
`example.com -> www.example.com` is allowed, `example.com -> evil.com` and
`sub.example.com -> other.example.com` are denied. -/
theorem IsSafeDomainRedirect_lowercase_www :
    (∀ (toLower : String → String) (original new : URL),
      (IsSafeDomainRedirect toLower original new = true ↔
        (toLower original.Host = toLower new.Host
          ∨ TrimPrefix (toLower original.Host) "www." = toLower new.Host
          ∨ toLower original.Host = TrimPrefix (toLower new.Host) "www."
          ∨ TrimPrefix (toLower original.Host) "www."
              = TrimPrefix (toLower new.Host) "www."))
      ∧ (IsSafeDomainRedirect toLower original new = true ↔
        (toLower original.Host = toLower new.Host
          ∨ toLower original.Host = "www." ++ toLower new.Host
          ∨ toLower new.Host = "www." ++ toLower original.Host)))
    ∧ IsSafeDomainRedirect asciiToLower ⟨"example.com"⟩ ⟨"www.example.com"⟩ = true
    ∧ IsSafeDomainRedirect asciiToLower ⟨"example.com"⟩ ⟨"evil.com"⟩ = false
    ∧ IsSafeDomainRedirect asciiToLower ⟨"sub.example.com"⟩ ⟨"other.example.com"⟩ = false := by
  refine ⟨fun toLower original new => ⟨?_, ?_⟩, by decide, by decide, by decide⟩
  · exact IsSafeDomainRedirect_iff_trim toLower original new
  · exact IsSafeDomainRedirect_iff_www toLower original new

/-! ### C2, C3 -/

theorem IsSafeDomainRedirect_same_host (toLower : String → String) (original new : URL)
    (h : new.Host = original.Host) : IsSafeDomainRedirect toLower original new = true := by
  unfold IsSafeDomainRedirect
  simp [h]

theorem CheckRedirect_below_cap (toLower : String → String) (req first : Request)
    (rest : List Request) (h : (first :: rest).length < 10) :
    CheckRedirect toLower req (first :: rest) =
      if IsSafeDomainRedirect toLower first.URL req.URL = true then RedirectDecision.allow
      else RedirectDecision.differentDomain first.URL.Host req.URL.Host := by
  unfold CheckRedirect
  have h1 : ¬ (first :: rest).length ≥ 10 := by omega
  rw [if_neg h1]
  by_cases hs : IsSafeDomainRedirect toLower first.URL req.URL = true <;> simp [hs]

theorem followRedirects_same_host (toLower : String → String) (first : Request) :
    ∀ (hops rest : List Request), (∀ r ∈ hops, r.URL.Host = first.URL.Host) →
      ((first :: rest).length + hops.length ≤ 10 →
        followRedirects toLower (first :: rest) hops = Except.ok ((first :: rest) ++ hops))
      ∧ (10 < (first :: rest).length + hops.length → hops ≠ [] →
        followRedirects toLower (first :: rest) hops
          = Except.error RedirectDecision.stoppedAfter10Redirects) := by
  intro hops
  induction hops with
  | nil =>
    intro rest _
    exact ⟨fun _ => by simp [followRedirects], fun _ h => absurd rfl h⟩
  | cons req hops ih =>
    intro rest hh
    have hreq : req.URL.Host = first.URL.Host := hh req (List.mem_cons_self _ _)
    have hrest : ∀ r ∈ hops, r.URL.Host = first.URL.Host :=
      fun r hr => hh r (List.mem_cons_of_mem _ hr)
    have hstep := ih (rest ++ [req]) hrest
    simp only [List.length_cons, List.length_append, List.length_nil] at hstep
    simp only [List.length_cons]
    by_cases hcap : (first :: rest).length < 10
    · have hc : CheckRedirect toLower req (first :: rest) = RedirectDecision.allow := by
        rw [CheckRedirect_below_cap toLower req first rest hcap,
          if_pos (IsSafeDomainRedirect_same_host toLower first.URL req.URL hreq)]
      have hf : followRedirects toLower (first :: rest) (req :: hops)
          = followRedirects toLower (first :: (rest ++ [req])) hops := by
        rw [followRedirects, hc]
        rfl
      rw [hf]
      simp only [List.length_cons] at hcap
      constructor
      · intro hle
        rw [hstep.1 (by omega)]
        simp
      · intro hlt _
        have hne : hops ≠ [] := by
          intro h0
          rw [h0] at hlt
          simp only [List.length_nil] at hlt
          omega
        exact hstep.2 (by omega) hne
    · have hc : CheckRedirect toLower req (first :: rest)
          = RedirectDecision.stoppedAfter10Redirects := by
        unfold CheckRedirect
        rw [if_pos (by omega)]
      simp only [List.length_cons] at hcap
      constructor
      · intro hle
        omega
      · intro _ _
        rw [followRedirects, hc]

/-- C2, as stated, fails: a chain of 10 redirects that all stay on the original
host does not complete; the policy refuses the 10th redirect, for which the
list of requests already made has length 10, with the error
`stopped after 10 redirects`. -/
theorem followRedirects_ten_redirects_fail :
    followRedirects asciiToLower [⟨⟨"example.com"⟩, ""⟩]
        (List.replicate 10 ⟨⟨"example.com"⟩, ""⟩)
      = Except.error RedirectDecision.stoppedAfter10Redirects := by
  rfl

/-- C2, amended: for a redirect chain in which every hop stays on the original
host, the redirect policy (called before each redirect with the list of requests
already made) lets a chain of at most 9 redirects complete, all requests being
made, and fails a chain of 10 or more redirects, so also one of 11, with the
too-many-redirects error `stopped after 10 redirects`. -/
theorem followRedirects_hop_cap (toLower : String → String) (first : Request)
    (hops : List Request) (hsame : ∀ r ∈ hops, r.URL.Host = first.URL.Host) :
    (hops.length ≤ 9 → followRedirects toLower [first] hops = Except.ok (first :: hops))
    ∧ (10 ≤ hops.length →
        followRedirects toLower [first] hops
          = Except.error RedirectDecision.stoppedAfter10Redirects) := by
  have h := followRedirects_same_host toLower first hops [] hsame
  simp only [List.length_cons, List.length_nil] at h
  constructor
  · intro hle
    rw [h.1 (by omega)]
    simp
  · intro hge
    apply h.2 (by omega)
    intro h0
    rw [h0] at hge
    simp at hge

/-- Witness of C2 (amended): a chain of 9 redirects on `example.com` completes
with all 10 requests made. -/
theorem followRedirects_hop_cap_witness :
    (∀ r ∈ List.replicate 9 (⟨⟨"example.com"⟩, ""⟩ : Request),
        r.URL.Host = (⟨⟨"example.com"⟩, ""⟩ : Request).URL.Host)
    ∧ followRedirects asciiToLower [⟨⟨"example.com"⟩, ""⟩]
        (List.replicate 9 ⟨⟨"example.com"⟩, ""⟩)
      = Except.ok (List.replicate 10 ⟨⟨"example.com"⟩, ""⟩) :=
  ⟨by decide,
   (followRedirects_hop_cap asciiToLower ⟨⟨"example.com"⟩, ""⟩
      (List.replicate 9 ⟨⟨"example.com"⟩, ""⟩) (by decide)).1 (by decide)⟩

/-- C3: for every redirect hop whose non-empty list of prior requests is below
the hop cap, the policy allows the hop exactly when `IsSafeDomainRedirect`
holds between the URL of the first request and the candidate URL, and otherwise
rejects it with the cross-domain error naming the two hosts; the requests after
the first have no influence: any other list of intermediate requests below the
cap gives the same decision. -/
theorem CheckRedirect_judges_against_first (toLower : String → String) (req first : Request)
    (rest : List Request) (hcap : (first :: rest).length < 10) :
    (CheckRedirect toLower req (first :: rest) = RedirectDecision.allow
        ↔ IsSafeDomainRedirect toLower first.URL req.URL = true)
    ∧ (IsSafeDomainRedirect toLower first.URL req.URL = false →
        CheckRedirect toLower req (first :: rest)
          = RedirectDecision.differentDomain first.URL.Host req.URL.Host)
    ∧ (∀ rest2 : List Request, (first :: rest2).length < 10 →
        CheckRedirect toLower req (first :: rest2)
          = CheckRedirect toLower req (first :: rest)) := by
  rw [CheckRedirect_below_cap toLower req first rest hcap]
  refine ⟨?_, ?_, ?_⟩
  · by_cases hs : IsSafeDomainRedirect toLower first.URL req.URL = true <;> simp [hs]
  · intro hs
    simp [hs]
  · intro rest2 h2
    rw [CheckRedirect_below_cap toLower req first rest2 h2]

/-- Witness of C3: after a first request to `example.com` and an intermediate one
to `www.example.com`, the hop to `evil.com` is judged against `example.com`. -/
theorem CheckRedirect_judges_against_first_witness :
    ([⟨⟨"example.com"⟩, ""⟩, ⟨⟨"www.example.com"⟩, ""⟩] : List Request).length < 10
    ∧ CheckRedirect asciiToLower ⟨⟨"evil.com"⟩, ""⟩
        [⟨⟨"example.com"⟩, ""⟩, ⟨⟨"www.example.com"⟩, ""⟩]
      = RedirectDecision.differentDomain "example.com" "evil.com" :=
  ⟨by decide,
   (CheckRedirect_judges_against_first asciiToLower ⟨⟨"evil.com"⟩, ""⟩
      ⟨⟨"example.com"⟩, ""⟩ [⟨⟨"www.example.com"⟩, ""⟩] (by decide)).2.1 (by decide)⟩

/-! ### C4, C5 -/

theorem ExecuteDetectionRules_cons_skip {σ : Type} (b : Browser σ) (r : DetectionRule)
    (rest : List DetectionRule) (s : σ) (h : r.script = none) :
    ExecuteDetectionRules b (r :: rest) s = ExecuteDetectionRules b rest s := by
  unfold DetectionRule.script at h
  by_cases h1 : r.Typ = "dom-selector"
  · simp [h1] at h
  · by_cases h2 : r.Typ = "js-eval"
    · simp [h1, h2] at h
    · rw [ExecuteDetectionRules, if_neg h1, if_neg h2]

theorem ExecuteDetectionRules_cons_eval {σ : Type} (b : Browser σ) (r : DetectionRule)
    (rest : List DetectionRule) (s : σ) (q : String) (h : r.script = some q) :
    ExecuteDetectionRules b (r :: rest) s =
      match b.evalBool s q with
      | (Except.ok true, s1) => (true, s1)
      | (_, s1) => ExecuteDetectionRules b rest s1 := by
  unfold DetectionRule.script at h
  by_cases h1 : r.Typ = "dom-selector"
  · rw [if_pos h1] at h
    injection h with h
    rw [ExecuteDetectionRules, if_pos h1, h]
  · by_cases h2 : r.Typ = "js-eval"
    · rw [if_neg h1, if_pos h2] at h
      injection h with h
      rw [ExecuteDetectionRules, if_neg h1, if_pos h2, h]
    · simp [h1, h2] at h

theorem ExecuteDetectionRules_cons_true {σ : Type} (b : Browser σ) (r : DetectionRule)
    (rest : List DetectionRule) (s s1 : σ) (q : String) (h : r.script = some q)
    (he : b.evalBool s q = (Except.ok true, s1)) :
    ExecuteDetectionRules b (r :: rest) s = (true, s1) := by
  rw [ExecuteDetectionRules_cons_eval b r rest s q h, he]

theorem ExecuteDetectionRules_cons_false {σ : Type} (b : Browser σ) (r : DetectionRule)
    (rest : List DetectionRule) (s : σ) (q : String) (h : r.script = some q)
    (he : (b.evalBool s q).1 ≠ Except.ok true) :
    ExecuteDetectionRules b (r :: rest) s
      = ExecuteDetectionRules b rest (b.evalBool s q).2 := by
  rw [ExecuteDetectionRules_cons_eval b r rest s q h]
  rcases hq : b.evalBool s q with ⟨res, s1⟩
  rw [hq] at he
  rcases res with e | v
  · rfl
  · cases v
    · rfl
    · exact absurd rfl he

theorem ExecuteDetectionRules_append_false {σ : Type} (b : Browser σ) :
    ∀ (pre post : List DetectionRule) (s s1 : σ),
      ExecuteDetectionRules b pre s = (false, s1) →
      ExecuteDetectionRules b (pre ++ post) s = ExecuteDetectionRules b post s1 := by
  intro pre
  induction pre with
  | nil =>
    intro post s s1 h
    simp only [ExecuteDetectionRules, Prod.mk.injEq, true_and] at h
    rw [List.nil_append, h]
  | cons r pre ih =>
    intro post s s1 h
    rw [List.cons_append]
    rcases hscript : r.script with _ | q
    · rw [ExecuteDetectionRules_cons_skip b r _ s hscript] at h ⊢
      exact ih post s s1 h
    · by_cases he : (b.evalBool s q).1 = Except.ok true
      · have hpair : b.evalBool s q = (Except.ok true, (b.evalBool s q).2) :=
          Prod.ext he rfl
        rw [ExecuteDetectionRules_cons_true b r pre s _ q hscript hpair] at h
        simp at h
      · rw [ExecuteDetectionRules_cons_false b r _ s q hscript he] at h ⊢
        exact ih post _ s1 h

theorem ExecuteDetectionRules_append_true {σ : Type} (b : Browser σ) :
    ∀ (pre post : List DetectionRule) (s s1 : σ),
      ExecuteDetectionRules b pre s = (true, s1) →
      ExecuteDetectionRules b (pre ++ post) s = (true, s1) := by
  intro pre
  induction pre with
  | nil =>
    intro post s s1 h
    simp [ExecuteDetectionRules] at h
  | cons r pre ih =>
    intro post s s1 h
    rw [List.cons_append]
    rcases hscript : r.script with _ | q
    · rw [ExecuteDetectionRules_cons_skip b r _ s hscript] at h ⊢
      exact ih post s s1 h
    · by_cases he : (b.evalBool s q).1 = Except.ok true
      · have hpair : b.evalBool s q = (Except.ok true, (b.evalBool s q).2) :=
          Prod.ext he rfl
        rw [ExecuteDetectionRules_cons_true b r _ s _ q hscript hpair] at h ⊢
        exact h
      · rw [ExecuteDetectionRules_cons_false b r _ s q hscript he] at h ⊢
        exact ih post _ s1 h

theorem ExecuteDetectionRules_first_truthy {σ : Type} (b : Browser σ)
    (pre post : List DetectionRule) (r : DetectionRule) (q : String) (s s1 s2 : σ)
    (hpre : ExecuteDetectionRules b pre s = (false, s1)) (hq : r.script = some q)
    (he : b.evalBool s1 q = (Except.ok true, s2)) :
    ExecuteDetectionRules b (pre ++ r :: post) s = (true, s2) := by
  rw [ExecuteDetectionRules_append_false b pre (r :: post) s s1 hpre]
  exact ExecuteDetectionRules_cons_true b r post s1 s2 q hq he

theorem ExecuteDetectionRules_true_split {σ : Type} (b : Browser σ) :
    ∀ (rules : List DetectionRule) (s : σ), (ExecuteDetectionRules b rules s).1 = true →
      ∃ (pre : List DetectionRule) (r : DetectionRule) (post : List DetectionRule)
        (q : String) (s1 s2 : σ),
        rules = pre ++ r :: post ∧ ExecuteDetectionRules b pre s = (false, s1)
          ∧ r.script = some q ∧ b.evalBool s1 q = (Except.ok true, s2) := by
  intro rules
  induction rules with
  | nil =>
    intro s h
    simp [ExecuteDetectionRules] at h
  | cons r rest ih =>
    intro s h
    rcases hscript : r.script with _ | q
    · rw [ExecuteDetectionRules_cons_skip b r rest s hscript] at h
      obtain ⟨pre, r1, post, q1, s1, s2, hsplit, hpre, hq1, he1⟩ := ih s h
      refine ⟨r :: pre, r1, post, q1, s1, s2, ?_, ?_, hq1, he1⟩
      · rw [hsplit, List.cons_append]
      · rw [ExecuteDetectionRules_cons_skip b r pre s hscript]
        exact hpre
    · by_cases he : (b.evalBool s q).1 = Except.ok true
      · exact ⟨[], r, rest, q, s, (b.evalBool s q).2, rfl, rfl, hscript, Prod.ext he rfl⟩
      · rw [ExecuteDetectionRules_cons_false b r rest s q hscript he] at h
        obtain ⟨pre, r1, post, q1, s1, s2, hsplit, hpre, hq1, he1⟩ := ih _ h
        refine ⟨r :: pre, r1, post, q1, s1, s2, ?_, ?_, hq1, he1⟩
        · rw [hsplit, List.cons_append]
        · rw [ExecuteDetectionRules_cons_false b r pre s q hscript he]
          exact hpre

theorem ExecuteDetectionRules_fixed_answers {σ : Type} (b : Browser σ)
    (answer : String → Except String Bool) (hfix : ∀ s q, (b.evalBool s q).1 = answer q) :
    ∀ (rules : List DetectionRule) (s : σ),
      (ExecuteDetectionRules b rules s).1 = true ↔
        ∃ r ∈ rules, ∃ q, r.script = some q ∧ answer q = Except.ok true := by
  intro rules
  induction rules with
  | nil =>
    intro s
    simp [ExecuteDetectionRules]
  | cons r rest ih =>
    intro s
    rcases hscript : r.script with _ | q
    · rw [ExecuteDetectionRules_cons_skip b r rest s hscript, ih s]
      constructor
      · rintro ⟨r1, hr1, q1, hq1, ha1⟩
        exact ⟨r1, List.mem_cons_of_mem _ hr1, q1, hq1, ha1⟩
      · rintro ⟨r1, hr1, q1, hq1, ha1⟩
        rcases List.mem_cons.mp hr1 with heq | hmem
        · rw [heq, hscript] at hq1
          exact absurd hq1 (by simp)
        · exact ⟨r1, hmem, q1, hq1, ha1⟩
    · by_cases he : (b.evalBool s q).1 = Except.ok true
      · have hpair : b.evalBool s q = (Except.ok true, (b.evalBool s q).2) :=
          Prod.ext he rfl
        rw [ExecuteDetectionRules_cons_true b r rest s _ q hscript hpair]
        refine ⟨fun _ => ⟨r, List.mem_cons_self _ _, q, hscript, ?_⟩, fun _ => rfl⟩
        rw [← hfix s q]
        exact he
      · rw [ExecuteDetectionRules_cons_false b r rest s q hscript he, ih]
        constructor
        · rintro ⟨r1, hr1, q1, hq1, ha1⟩
          exact ⟨r1, List.mem_cons_of_mem _ hr1, q1, hq1, ha1⟩
        · rintro ⟨r1, hr1, q1, hq1, ha1⟩
          rcases List.mem_cons.mp hr1 with heq | hmem
          · rw [heq, hscript] at hq1
            injection hq1 with hq1
            rw [← hq1, ← hfix s q] at ha1
            exact absurd ha1 he
          · exact ⟨r1, hmem, q1, hq1, ha1⟩

/-- C4: `ExecuteDetectionRules` evaluates the rules in declared order and returns
true immediately at the first rule that evaluates truthily: when the rules
before `r` give false and leave the page in state `s1`, and `r` evaluates to
true there leaving state `s2`, the result on any list that continues after `r`
is true with final page state `s2`, so no rule after `r` is evaluated; rules
after a list that gave false are evaluated from the state that list left, and
rules after a list that gave true are never evaluated.  With the boolean stub
rules false, false, true, true on a page that records every script, the result
is true after exactly the first 3 scripts were evaluated, in declared order. -/
theorem ExecuteDetectionRules_short_circuit :
    (∀ (σ : Type) (b : Browser σ) (pre post : List DetectionRule) (r : DetectionRule)
        (q : String) (s s1 s2 : σ),
        ExecuteDetectionRules b pre s = (false, s1) → r.script = some q →
        b.evalBool s1 q = (Except.ok true, s2) →
        ExecuteDetectionRules b (pre ++ r :: post) s = (true, s2))
    ∧ (∀ (σ : Type) (b : Browser σ) (pre post : List DetectionRule) (s s1 : σ),
        ExecuteDetectionRules b pre s = (false, s1) →
        ExecuteDetectionRules b (pre ++ post) s = ExecuteDetectionRules b post s1)
    ∧ (∀ (σ : Type) (b : Browser σ) (pre post : List DetectionRule) (s s1 : σ),
        ExecuteDetectionRules b pre s = (true, s1) →
        ExecuteDetectionRules b (pre ++ post) s = (true, s1))
    ∧ stubRules.map (fun r => r.script.map stubAnswer)
        = [some (Except.ok false), some (Except.ok false), some (Except.ok true),
           some (Except.ok true)]
    ∧ ExecuteDetectionRules (recordingPage stubAnswer (fun _ => Except.error "unused"))
          stubRules []
        = (true, [selectorScript "#a", "window.b", "window.c"]) := by
  refine ⟨?_, ?_, ?_, by rfl, by rfl⟩
  · intro σ b pre post r q s s1 s2 hpre hq he
    exact ExecuteDetectionRules_first_truthy b pre post r q s s1 s2 hpre hq he
  · intro σ b pre post s s1 h
    exact ExecuteDetectionRules_append_false b pre post s s1 h
  · intro σ b pre post s s1 h
    exact ExecuteDetectionRules_append_true b pre post s s1 h

/-- Witness of C4: on the recording stub page the first two stub rules give
false, the third evaluates to true, and the run over all four rules stops
there. -/
theorem ExecuteDetectionRules_short_circuit_witness :
    ExecuteDetectionRules (recordingPage stubAnswer (fun _ => Except.error "unused"))
        (stubRules.take 2) []
      = (false, [selectorScript "#a", "window.b"])
    ∧ ExecuteDetectionRules (recordingPage stubAnswer (fun _ => Except.error "unused"))
        (stubRules.take 2 ++ { Typ := "js-eval", Query := "window.c" } :: stubRules.drop 3) []
      = (true, [selectorScript "#a", "window.b", "window.c"]) :=
  ⟨by rfl,
   ExecuteDetectionRules_short_circuit.1 (List String)
     (recordingPage stubAnswer (fun _ => Except.error "unused"))
     (stubRules.take 2) (stubRules.drop 3) { Typ := "js-eval", Query := "window.c" }
     "window.c" [] [selectorScript "#a", "window.b"]
     [selectorScript "#a", "window.b", "window.c"] (by rfl) (by rfl) (by rfl)⟩

/-- C5: `ExecuteDetectionRules` returns true if and only if some rule of the
list evaluates without error to true when the loop reaches it, all rules before
it having given no match; when the answers of the page are a fixed function of
the script, it returns true if and only if some rule of the list evaluates
without error to true.  A rule whose evaluation errors is a non-match for that
rule only: the following rules are evaluated as if it were absent, from the
page state it left.  The empty rule list yields false. -/
theorem ExecuteDetectionRules_true_iff {σ : Type} (b : Browser σ)
    (rules : List DetectionRule) (s : σ) :
    ((ExecuteDetectionRules b rules s).1 = true ↔
      ∃ (pre : List DetectionRule) (r : DetectionRule) (post : List DetectionRule)
        (q : String) (s1 s2 : σ),
        rules = pre ++ r :: post ∧ ExecuteDetectionRules b pre s = (false, s1)
          ∧ r.script = some q ∧ b.evalBool s1 q = (Except.ok true, s2))
    ∧ (∀ answer : String → Except String Bool, (∀ s1 q, (b.evalBool s1 q).1 = answer q) →
        ((ExecuteDetectionRules b rules s).1 = true ↔
          ∃ r ∈ rules, ∃ q, r.script = some q ∧ answer q = Except.ok true))
    ∧ (∀ (r : DetectionRule) (q e : String) (s1 : σ), r.script = some q →
        b.evalBool s q = (Except.error e, s1) →
        ExecuteDetectionRules b (r :: rules) s = ExecuteDetectionRules b rules s1)
    ∧ ExecuteDetectionRules b [] s = (false, s) := by
  refine ⟨⟨ExecuteDetectionRules_true_split b rules s, ?_⟩, ?_, ?_, rfl⟩
  · rintro ⟨pre, r, post, q, s1, s2, hsplit, hpre, hq, he⟩
    rw [hsplit, ExecuteDetectionRules_first_truthy b pre post r q s s1 s2 hpre hq he]
  · intro answer hfix
    exact ExecuteDetectionRules_fixed_answers b answer hfix rules s
  · intro r q e s1 hq he
    rw [ExecuteDetectionRules_cons_eval b r rules s q hq, he]

/-- Witness of C5: the first rule raises a script exception, which is a non-match
for that rule only; the second rule is still evaluated and matches. -/
theorem ExecuteDetectionRules_true_iff_witness :
    (recordingPage erringAnswer (fun _ => Except.error "unused")).evalBool [] "window.broken"
      = (Except.error "script exception", ["window.broken"])
    ∧ ExecuteDetectionRules (recordingPage erringAnswer (fun _ => Except.error "unused"))
        [{ Typ := "js-eval", Query := "window.broken" }, { Typ := "js-eval", Query := "window.c" }]
        []
      = ExecuteDetectionRules (recordingPage erringAnswer (fun _ => Except.error "unused"))
        [{ Typ := "js-eval", Query := "window.c" }] ["window.broken"]
    ∧ (ExecuteDetectionRules (recordingPage erringAnswer (fun _ => Except.error "unused"))
        [{ Typ := "js-eval", Query := "window.broken" }, { Typ := "js-eval", Query := "window.c" }]
        []).1 = true :=
  ⟨by rfl,
   (ExecuteDetectionRules_true_iff (recordingPage erringAnswer (fun _ => Except.error "unused"))
      [{ Typ := "js-eval", Query := "window.c" }] []).2.2.1
      { Typ := "js-eval", Query := "window.broken" } "window.broken" "script exception"
      ["window.broken"] (by rfl) (by rfl),
   by rfl⟩

/-! ### C6, C7 -/

theorem ExtractVersion_dom_attribute_value {σ : Type} (b : Browser σ) (re : Regexp)
    (rule : VersionExtraction) (rest : List VersionExtraction) (s s1 : σ) (v : String)
    (htyp : rule.Typ = "dom-attribute")
    (heval : b.evalString s (attributeScript rule.Selector rule.Attribute) = (Except.ok v, s1))
    (hv : v ≠ "") :
    ExtractVersion b re (rule :: rest) s = (applyPattern re rule.Pattern v, s1) := by
  rw [ExtractVersion, if_pos htyp, heval]
  simp [hv]

/-- C6, as stated, fails: the generator rule reads the non-empty attribute value
`latest`, its pattern `v(\d+\.\d+\.\d+)` does not match it, and `ExtractVersion`
returns the raw value `latest` after that single evaluation instead of
continuing with the next rule, which would have given `1.2`. -/
theorem ExtractVersion_mismatch_returns_raw :
    (stubRegexp.Compile "v(\\d+\\.\\d+\\.\\d+)").map (fun find => find "latest") = some []
    ∧ ExtractVersion (recordingPage stubAnswer (versionText "latest")) stubRegexp
        [generatorRule "v(\\d+\\.\\d+\\.\\d+)", appVersionRule] []
      = ("latest", [attributeScript "meta[name=generator]" "content"])
    ∧ ExtractVersion (recordingPage stubAnswer (versionText "latest")) stubRegexp
        [appVersionRule] [attributeScript "meta[name=generator]" "content"]
      = ("1.2", [attributeScript "meta[name=generator]" "content", "window.appVersion"]) := by
  refine ⟨by rfl, by rfl, by rfl⟩

/-- C6, amended: for every dom-attribute version rule whose attribute value is
present and non-empty and whose pattern is set, with the pattern compiled to
`find`: if the pattern matches with a capture group, `ExtractVersion` returns
capture group 1; if the pattern does not match, or matches without any capture
group, `ExtractVersion` returns the raw attribute value.  In each case the page
is left as the evaluation of this rule left it: no later rule is evaluated. -/
theorem ExtractVersion_pattern {σ : Type} (b : Browser σ) (re : Regexp)
    (rule : VersionExtraction) (rest : List VersionExtraction) (s s1 : σ) (v : String)
    (find : String → List String)
    (htyp : rule.Typ = "dom-attribute")
    (heval : b.evalString s (attributeScript rule.Selector rule.Attribute) = (Except.ok v, s1))
    (hv : v ≠ "") (hpat : rule.Pattern ≠ "") (hcomp : re.Compile rule.Pattern = some find) :
    (∀ (whole group1 : String) (more : List String),
        find v = whole :: group1 :: more →
        ExtractVersion b re (rule :: rest) s = (group1, s1))
    ∧ (find v = [] → ExtractVersion b re (rule :: rest) s = (v, s1))
    ∧ (∀ whole : String, find v = [whole] →
        ExtractVersion b re (rule :: rest) s = (v, s1)) := by
  rw [ExtractVersion_dom_attribute_value b re rule rest s s1 v htyp heval hv]
  unfold applyPattern
  rw [if_pos hpat, hcomp]
  refine ⟨?_, ?_, ?_⟩
  · intro whole group1 more hm
    simp [hm]
  · intro hm
    simp [hm]
  · intro whole hm
    simp [hm]

/-- Witness of C6 (amended): on the attribute value `v2.3.1-beta` the pattern
`v(\d+\.\d+\.\d+)` matches with capture group `2.3.1`, which is returned without
evaluating the next rule. -/
theorem ExtractVersion_pattern_witness :
    (stubRegexp.Compile "v(\\d+\\.\\d+\\.\\d+)").map (fun find => find "v2.3.1-beta")
      = some ["v2.3.1", "2.3.1"]
    ∧ ExtractVersion (recordingPage stubAnswer (versionText "v2.3.1-beta")) stubRegexp
        [generatorRule "v(\\d+\\.\\d+\\.\\d+)", appVersionRule] []
      = ("2.3.1", [attributeScript "meta[name=generator]" "content"]) :=
  ⟨by rfl,
   (ExtractVersion_pattern (recordingPage stubAnswer (versionText "v2.3.1-beta")) stubRegexp
      (generatorRule "v(\\d+\\.\\d+\\.\\d+)") [appVersionRule] []
      [attributeScript "meta[name=generator]" "content"] "v2.3.1-beta"
      (fun subject => if subject = "v2.3.1-beta" then ["v2.3.1", "2.3.1"] else [])
      (by rfl) (by rfl) (by decide) (by decide) (by rfl)).1
      "v2.3.1" "2.3.1" [] (by rfl)⟩

/-- C7, the code at the failing input: the generator rule reads `v-beta`, its
pattern `v([\d.]*)` matches with an empty capture group 1, and `ExtractVersion`
returns the empty string after that single evaluation, although the next rule
in the list produces the non-empty result `1.2`. -/
theorem ExtractVersion_empty_capture_hides_later_rule :
    (stubRegexp.Compile "v([\\d.]*)").map (fun find => find "v-beta") = some ["v", ""]
    ∧ ExtractVersion (recordingPage stubAnswer (versionText "v-beta")) stubRegexp
        [generatorRule "v([\\d.]*)", appVersionRule] []
      = ("", [attributeScript "meta[name=generator]" "content"])
    ∧ ExtractVersion (recordingPage stubAnswer (versionText "v-beta")) stubRegexp
        [appVersionRule] []
      = ("1.2", ["window.appVersion"]) := by
  refine ⟨by rfl, by rfl, by rfl⟩

/-! ### C8, C9, C10 -/

theorem ExecuteDetectionRules_guard {σ : Type} (b : Browser σ) (rules : List DetectionRule)
    (s : σ) :
    (if rules.length > 0 then ExecuteDetectionRules b rules s else (false, s))
      = ExecuteDetectionRules b rules s := by
  cases rules with
  | nil => simp [ExecuteDetectionRules]
  | cons r rest => simp

theorem ExtractVersion_guard {σ : Type} (b : Browser σ) (re : Regexp)
    (rules : List VersionExtraction) (s : σ) :
    (if rules.length > 0 then ExtractVersion b re rules s else ("", s))
      = ExtractVersion b re rules s := by
  cases rules with
  | nil => simp [ExtractVersion]
  | cons r rest => simp

theorem enhanceApp_no_rules {σ : Type} (b : Browser σ) (re : Regexp) (appName : String)
    (fingerprint : Fingerprint) (technologies : Technologies) (s : σ)
    (hb : fingerprint.Browser = none) :
    enhanceApp b re appName fingerprint technologies s = (technologies, s) := by
  unfold enhanceApp
  rw [hb]

theorem enhanceApp_absent {σ : Type} (b : Browser σ) (re : Regexp) (appName : String)
    (fingerprint : Fingerprint) (rules : BrowserRules) (technologies : Technologies) (s : σ)
    (hb : fingerprint.Browser = some rules) (ht : technologies appName = none) :
    enhanceApp b re appName fingerprint technologies s =
      if (ExecuteDetectionRules b rules.Detection s).1 = true then
        (technologies.set appName
            (ExtractVersion b re rules.Version (ExecuteDetectionRules b rules.Detection s).2).1,
          (ExtractVersion b re rules.Version (ExecuteDetectionRules b rules.Detection s).2).2)
      else (technologies, (ExecuteDetectionRules b rules.Detection s).2) := by
  unfold enhanceApp
  rw [hb]
  simp only [ht, Option.isSome_none, Bool.not_false, Bool.true_and, decide_eq_true_eq,
    ExecuteDetectionRules_guard, ExtractVersion_guard]
  by_cases hd : (ExecuteDetectionRules b rules.Detection s).1 = true
  · simp only [hd, if_true]
    by_cases hv : (ExtractVersion b re rules.Version
        (ExecuteDetectionRules b rules.Detection s).2).1 = ""
    · simp [hv]
    · simp [hv]
  · simp [hd]

theorem enhanceApp_present {σ : Type} (b : Browser σ) (re : Regexp) (appName : String)
    (fingerprint : Fingerprint) (rules : BrowserRules) (technologies : Technologies) (s : σ)
    (v0 : String) (hb : fingerprint.Browser = some rules)
    (ht : technologies appName = some v0) :
    enhanceApp b re appName fingerprint technologies s =
      (if (ExtractVersion b re rules.Version s).1 ≠ "" then
          technologies.set appName (ExtractVersion b re rules.Version s).1
        else technologies,
       (ExtractVersion b re rules.Version s).2) := by
  unfold enhanceApp
  rw [hb]
  simp only [ht, Option.isSome_some, Bool.not_true, Bool.false_and, if_true,
    ExtractVersion_guard]
  by_cases hv : (ExtractVersion b re rules.Version s).1 = ""
  · simp [hv]
  · simp [hv]

theorem Technologies.set_same (m : Technologies) (k v : String) : m.set k v k = some v := by
  simp [Technologies.set]

theorem Technologies.set_other (m : Technologies) (k v k1 : String) (h : k1 ≠ k) :
    m.set k v k1 = m k1 := by
  simp [Technologies.set, h]

theorem enhanceApp_other {σ : Type} (b : Browser σ) (re : Regexp) (appName : String)
    (fingerprint : Fingerprint) (technologies : Technologies) (s : σ) (name : String)
    (hne : name ≠ appName) :
    (enhanceApp b re appName fingerprint technologies s).1 name = technologies name := by
  rcases hb : fingerprint.Browser with _ | rules
  · rw [enhanceApp_no_rules b re appName fingerprint technologies s hb]
  · rcases ht : technologies appName with _ | v0
    · rw [enhanceApp_absent b re appName fingerprint rules technologies s hb ht]
      split_ifs
      · exact Technologies.set_other _ _ _ _ hne
      · rfl
    · rw [enhanceApp_present b re appName fingerprint rules technologies s v0 hb ht]
      simp only []
      split_ifs
      · exact Technologies.set_other _ _ _ _ hne
      · rfl

theorem enhanceApps_other {σ : Type} (b : Browser σ) (re : Regexp) (name : String) :
    ∀ (apps : List (String × Fingerprint)) (technologies : Technologies) (s : σ),
      name ∉ apps.map Prod.fst →
      (enhanceApps b re apps technologies s).1 name = technologies name := by
  intro apps
  induction apps with
  | nil =>
    intro technologies s _
    rfl
  | cons a rest ih =>
    intro technologies s hn
    obtain ⟨appName, fingerprint⟩ := a
    simp only [List.map_cons, List.mem_cons, not_or] at hn
    rw [enhanceApps, ih _ _ hn.2]
    exact enhanceApp_other b re appName fingerprint technologies s name hn.1

theorem enhanceApps_append {σ : Type} (b : Browser σ) (re : Regexp) :
    ∀ (pre post : List (String × Fingerprint)) (technologies : Technologies) (s : σ),
      enhanceApps b re (pre ++ post) technologies s
        = enhanceApps b re post (enhanceApps b re pre technologies s).1
            (enhanceApps b re pre technologies s).2 := by
  intro pre
  induction pre with
  | nil =>
    intro post technologies s
    rfl
  | cons a rest ih =>
    intro post technologies s
    obtain ⟨appName, fingerprint⟩ := a
    rw [List.cons_append, enhanceApps, ih, enhanceApps]

theorem enhanceApp_keeps {σ : Type} (b : Browser σ) (re : Regexp) (appName : String)
    (fingerprint : Fingerprint) (technologies : Technologies) (s : σ) (name v : String)
    (h : technologies name = some v) :
    ∃ v1, (enhanceApp b re appName fingerprint technologies s).1 name = some v1
      ∧ (v ≠ "" → v1 ≠ "") := by
  by_cases hne : name = appName
  · rw [hne] at h ⊢
    rcases hb : fingerprint.Browser with _ | rules
    · rw [enhanceApp_no_rules b re appName fingerprint technologies s hb]
      exact ⟨v, h, fun hv => hv⟩
    · rw [enhanceApp_present b re appName fingerprint rules technologies s v hb h]
      simp only []
      by_cases hv : (ExtractVersion b re rules.Version s).1 = ""
      · rw [if_neg (by simp [hv])]
        exact ⟨v, h, fun hv0 => hv0⟩
      · rw [if_pos hv]
        exact ⟨_, Technologies.set_same _ _ _, fun _ => hv⟩
  · rw [enhanceApp_other b re appName fingerprint technologies s name hne]
    exact ⟨v, h, fun hv => hv⟩

theorem enhanceApps_keeps {σ : Type} (b : Browser σ) (re : Regexp) (name : String) :
    ∀ (apps : List (String × Fingerprint)) (technologies : Technologies) (s : σ) (v : String),
      technologies name = some v →
      ∃ v1, (enhanceApps b re apps technologies s).1 name = some v1 ∧ (v ≠ "" → v1 ≠ "") := by
  intro apps
  induction apps with
  | nil =>
    intro technologies s v h
    exact ⟨v, h, fun hv => hv⟩
  | cons a rest ih =>
    intro technologies s v h
    obtain ⟨appName, fingerprint⟩ := a
    obtain ⟨v1, h1, hv1⟩ := enhanceApp_keeps b re appName fingerprint technologies s name v h
    obtain ⟨v2, h2, hv2⟩ := ih _ (enhanceApp b re appName fingerprint technologies s).2 v1 h1
    rw [enhanceApps]
    exact ⟨v2, h2, fun hv => hv2 (hv1 hv)⟩

theorem EnhanceWithVersions_keeps {σ : Type} (b : Browser σ) (re : Regexp) (url : String)
    (technologies : Technologies) (apps : List (String × Fingerprint)) (name v : String)
    (h : technologies name = some v) :
    ∃ v1, (EnhanceWithVersions b re url technologies apps).2 name = some v1
      ∧ (v ≠ "" → v1 ≠ "") := by
  unfold EnhanceWithVersions
  rcases b.navigate url with err | s
  · exact ⟨v, h, fun hv => hv⟩
  · exact enhanceApps_keeps b re name apps technologies s v h

/-- C8: for every static baseline map, every fingerprint set (in every visiting
order) and every browser outcome, navigation failure and erroring rules
included, after `EnhanceWithVersions` every technology name of the baseline is
still a key of the map, and every technology whose version was non-empty still
has a non-empty version: a baseline version such as `1.0` is never downgraded to
empty. -/
theorem EnhanceWithVersions_never_downgrades {σ : Type} (b : Browser σ) (re : Regexp)
    (url : String) (technologies : Technologies) (apps : List (String × Fingerprint)) :
    (∀ name : String, (technologies name).isSome = true →
        ((EnhanceWithVersions b re url technologies apps).2 name).isSome = true)
    ∧ (∀ name v : String, technologies name = some v → v ≠ "" →
        ∃ v1, (EnhanceWithVersions b re url technologies apps).2 name = some v1 ∧ v1 ≠ "") := by
  constructor
  · intro name hsome
    obtain ⟨v, hv⟩ := Option.isSome_iff_exists.mp hsome
    obtain ⟨v1, h1, _⟩ := EnhanceWithVersions_keeps b re url technologies apps name v hv
    rw [h1]
    rfl
  · intro name v hv hne
    obtain ⟨v1, h1, hv1⟩ := EnhanceWithVersions_keeps b re url technologies apps name v hv
    exact ⟨v1, h1, hv1 hne⟩

/-- Witness of C8: `WordPress` is in the baseline with version `1.0`; the browser
phase reads an empty generator attribute and finds no version, and `WordPress`
still has a non-empty version afterwards. -/
theorem EnhanceWithVersions_never_downgrades_witness :
    stubBaseline "WordPress" = some "1.0"
    ∧ ∃ v1, (EnhanceWithVersions (recordingPage stubAnswer (versionText "")) stubRegexp
          "https://example.com" stubBaseline stubApps).2 "WordPress" = some v1 ∧ v1 ≠ "" :=
  ⟨by rfl,
   (EnhanceWithVersions_never_downgrades (recordingPage stubAnswer (versionText "")) stubRegexp
      "https://example.com" stubBaseline stubApps).2 "WordPress" "1.0" (by rfl) (by decide)⟩

theorem enhanceApps_at {σ : Type} (b : Browser σ) (re : Regexp)
    (pre post : List (String × Fingerprint)) (name : String) (fingerprint : Fingerprint)
    (technologies : Technologies) (s : σ)
    (hnodup : ((pre ++ (name, fingerprint) :: post).map Prod.fst).Nodup) :
    (enhanceApps b re pre technologies s).1 name = technologies name
    ∧ (enhanceApps b re (pre ++ (name, fingerprint) :: post) technologies s).1 name
        = (enhanceApp b re name fingerprint (enhanceApps b re pre technologies s).1
            (enhanceApps b re pre technologies s).2).1 name := by
  rw [List.map_append, List.map_cons, List.nodup_append] at hnodup
  obtain ⟨_, hpost, hdisj⟩ := hnodup
  have hpre : name ∉ pre.map Prod.fst := fun hmem =>
    hdisj hmem (List.mem_cons_self _ _)
  have hpost1 : name ∉ post.map Prod.fst := (List.nodup_cons.mp hpost).1
  refine ⟨enhanceApps_other b re name pre technologies s hpre, ?_⟩
  rw [enhanceApps_append, enhanceApps]
  exact enhanceApps_other b re name post _ _ hpost1

/-- C9: after a browser session that navigated successfully (to page state `s0`),
`EnhanceWithVersions` returns no error and, for every technology `name` of the
fingerprint map, reached by the loop in page state `s`: with a browser-rule
descriptor and in the static baseline, its version is replaced by the result of
`ExtractVersion` on the version rules when that result is non-empty (which needs
version rules to exist) and is otherwise left as it was; with a browser-rule
descriptor and not in the baseline, it is added exactly when
`ExecuteDetectionRules` on its detection rules returns true, with the
`ExtractVersion` result as version (empty when there are no version rules or
none yields a value); without a browser-rule descriptor its baseline entry is
unchanged, as is the entry of every name that is not in the fingerprint map. -/
theorem EnhanceWithVersions_merge {σ : Type} (b : Browser σ) (re : Regexp) (url : String)
    (technologies : Technologies) (apps : List (String × Fingerprint)) (s0 : σ)
    (hnav : b.navigate url = Except.ok s0) (hnodup : (apps.map Prod.fst).Nodup) :
    (EnhanceWithVersions b re url technologies apps).1 = none
    ∧ (∀ (pre post : List (String × Fingerprint)) (name : String) (fingerprint : Fingerprint)
        (rules : BrowserRules) (v : String),
        apps = pre ++ (name, fingerprint) :: post → fingerprint.Browser = some rules →
        technologies name = some v →
        (EnhanceWithVersions b re url technologies apps).2 name =
          if (ExtractVersion b re rules.Version (enhanceApps b re pre technologies s0).2).1 ≠ ""
          then some (ExtractVersion b re rules.Version
            (enhanceApps b re pre technologies s0).2).1
          else some v)
    ∧ (∀ (pre post : List (String × Fingerprint)) (name : String) (fingerprint : Fingerprint)
        (rules : BrowserRules),
        apps = pre ++ (name, fingerprint) :: post → fingerprint.Browser = some rules →
        technologies name = none →
        (EnhanceWithVersions b re url technologies apps).2 name =
          if (ExecuteDetectionRules b rules.Detection
              (enhanceApps b re pre technologies s0).2).1 = true
          then some (ExtractVersion b re rules.Version
            (ExecuteDetectionRules b rules.Detection
              (enhanceApps b re pre technologies s0).2).2).1
          else none)
    ∧ (∀ (pre post : List (String × Fingerprint)) (name : String) (fingerprint : Fingerprint),
        apps = pre ++ (name, fingerprint) :: post → fingerprint.Browser = none →
        (EnhanceWithVersions b re url technologies apps).2 name = technologies name)
    ∧ (∀ name : String, name ∉ apps.map Prod.fst →
        (EnhanceWithVersions b re url technologies apps).2 name = technologies name)
    ∧ (∀ s : σ, ExtractVersion b re [] s = ("", s)) := by
  have hE : EnhanceWithVersions b re url technologies apps
      = (none, (enhanceApps b re apps technologies s0).1) := by
    unfold EnhanceWithVersions
    rw [hnav]
  rw [hE]
  refine ⟨rfl, ?_, ?_, ?_, ?_, ?_⟩
  · intro pre post name fingerprint rules v happs hb ht
    rw [happs] at hnodup
    obtain ⟨hpre, hat⟩ := enhanceApps_at b re pre post name fingerprint technologies s0 hnodup
    simp only []
    rw [happs, hat, enhanceApp_present b re name fingerprint rules _ _ v hb (hpre.trans ht)]
    simp only []
    split_ifs with hv
    · exact Technologies.set_same _ _ _
    · exact hpre.trans ht
  · intro pre post name fingerprint rules happs hb ht
    rw [happs] at hnodup
    obtain ⟨hpre, hat⟩ := enhanceApps_at b re pre post name fingerprint technologies s0 hnodup
    simp only []
    rw [happs, hat, enhanceApp_absent b re name fingerprint rules _ _ hb (hpre.trans ht)]
    split_ifs with hd
    · exact Technologies.set_same _ _ _
    · exact hpre.trans ht
  · intro pre post name fingerprint happs hb
    rw [happs] at hnodup
    obtain ⟨hpre, hat⟩ := enhanceApps_at b re pre post name fingerprint technologies s0 hnodup
    simp only []
    rw [happs, hat, enhanceApp_no_rules b re name fingerprint _ _ hb]
    exact hpre
  · intro name hn
    exact enhanceApps_other b re name apps technologies s0 hn
  · intro s
    rfl

/-- Witness of C9: on a page whose generator attribute is `v2.3.1-beta`, where
`window.c` is true and `window.appVersion` is `1.2`, the baseline entry of
`WordPress` is replaced by the extracted `2.3.1`, and `jQuery`, absent from the
baseline, is added with version `1.2`. -/
theorem EnhanceWithVersions_merge_witness :
    (stubApps.map Prod.fst).Nodup
    ∧ (EnhanceWithVersions (recordingPage stubAnswer (versionText "v2.3.1-beta")) stubRegexp
        "https://example.com" stubBaseline stubApps).2 "WordPress" = some "2.3.1"
    ∧ (EnhanceWithVersions (recordingPage stubAnswer (versionText "v2.3.1-beta")) stubRegexp
        "https://example.com" stubBaseline stubApps).2 "jQuery" = some "1.2" :=
  ⟨by decide,
   ((EnhanceWithVersions_merge (recordingPage stubAnswer (versionText "v2.3.1-beta")) stubRegexp
      "https://example.com" stubBaseline stubApps [] (by rfl) (by decide)).2.1
      [] (stubApps.drop 1) "WordPress"
      { Browser := some { Version := [generatorRule "v(\\d+\\.\\d+\\.\\d+)"] } }
      { Version := [generatorRule "v(\\d+\\.\\d+\\.\\d+)"] } "1.0"
      (by rfl) (by rfl) (by rfl)).trans (by rfl),
   ((EnhanceWithVersions_merge (recordingPage stubAnswer (versionText "v2.3.1-beta")) stubRegexp
      "https://example.com" stubBaseline stubApps [] (by rfl) (by decide)).2.2.1
      (stubApps.take 1) (stubApps.drop 2) "jQuery"
      { Browser := some { Detection := [{ Typ := "js-eval", Query := "window.c" }],
                          Version := [appVersionRule] } }
      { Detection := [{ Typ := "js-eval", Query := "window.c" }], Version := [appVersionRule] }
      (by rfl) (by rfl) (by rfl)).trans (by rfl)⟩

/-- C10: when opening the browser session or navigating fails,
`EnhanceWithVersions` returns the error without changing the technologies map at
all, and `scanURL` (not in static mode, the fetch having succeeded) then returns
a `ScanResult` whose technologies equal the static baseline, whose mode is
`hybrid` and whose `Error` field is empty. -/
theorem EnhanceWithVersions_navigation_failure {σ : Type} (b : Browser σ) (re : Regexp)
    (url err : String) (hnav : b.navigate url = Except.error err) :
    (∀ (technologies : Technologies) (apps : List (String × Fingerprint)),
        EnhanceWithVersions b re url technologies apps = (some err, technologies))
    ∧ (∀ (http : Transport) (userAgent : String) (wappalyzerClient : Wappalyze)
        (headers : Headers) (body : Body),
        fetchURLStatic http userAgent url = Except.ok (headers, body) →
        scanURL http b re false userAgent url wappalyzerClient
          = { URL := url,
              Technologies := formatSimpleFingerprints (wappalyzerClient.Fingerprint headers body),
              Mode := "hybrid",
              Error := "" }) := by
  have hE : ∀ (technologies : Technologies) (apps : List (String × Fingerprint)),
      EnhanceWithVersions b re url technologies apps = (some err, technologies) := by
    intro technologies apps
    unfold EnhanceWithVersions
    rw [hnav]
  refine ⟨hE, ?_⟩
  intro http userAgent wappalyzerClient headers body hfetch
  unfold scanURL
  rw [hfetch]
  simp [hE]

/-- Witness of C10: the browser cannot navigate; the scan of
`https://example.com` keeps the static baseline `PHP` at `8.1` in mode
`hybrid`, with no error. -/
theorem EnhanceWithVersions_navigation_failure_witness :
    offlinePage.navigate "https://example.com" = Except.error "context deadline exceeded"
    ∧ scanURL stubTransport offlinePage stubRegexp false "Mozilla/5.0" "https://example.com"
        stubClient
      = { URL := "https://example.com",
          Technologies := formatSimpleFingerprints
            (stubClient.Fingerprint [("X-Powered-By", ["PHP/8.1"])] []),
          Mode := "hybrid",
          Error := "" }
    ∧ formatSimpleFingerprints (stubClient.Fingerprint [("X-Powered-By", ["PHP/8.1"])] []) "PHP"
      = some "8.1" :=
  ⟨by rfl,
   (EnhanceWithVersions_navigation_failure offlinePage stubRegexp "https://example.com"
      "context deadline exceeded" (by rfl)).2 stubTransport "Mozilla/5.0" stubClient
      [("X-Powered-By", ["PHP/8.1"])] [] (by rfl),
   by rfl⟩

/-! ### C11, C12 -/

theorem String.append_ne_empty (a b : String) (h : a ≠ "") : a ++ b ≠ "" := by
  intro hab
  apply h
  have hd : (a ++ b).data = [] := by rw [hab]
  rw [String.data_append, List.append_eq_nil] at hd
  exact String.ext hd.1

theorem Fetch_error_nonempty (http : Transport) (userAgent url err : String)
    (h : Fetch http userAgent url = Except.error err) : err ≠ "" := by
  unfold Fetch at h
  rcases hreq : http.NewRequest url with e | req
  · rw [hreq] at h
    simp only [Except.error.injEq] at h
    rw [← h]
    exact String.append_ne_empty _ _ (by decide)
  · rw [hreq] at h
    simp only [] at h
    rcases hdo : http.Do { req with UserAgent := userAgent } with e | ⟨header, respBody⟩
    · rw [hdo] at h
      simp only [Except.error.injEq] at h
      rw [← h]
      exact String.append_ne_empty _ _ (by decide)
    · rw [hdo] at h
      simp only [] at h
      rcases hread : http.ReadAll respBody with e | body
      · rw [hread] at h
        simp only [Except.error.injEq] at h
        rw [← h]
        exact String.append_ne_empty _ _ (by decide)
      · rw [hread] at h
        simp at h

theorem scanURL_of_fetch_error {σ : Type} (http : Transport) (b : Browser σ) (re : Regexp)
    (staticMode : Bool) (userAgent url : String) (wappalyzerClient : Wappalyze) (err : String)
    (hfetch : fetchURLStatic http userAgent url = Except.error err) :
    scanURL http b re staticMode userAgent url wappalyzerClient
      = { URL := url, Technologies := Technologies.empty, Mode := "", Error := err } := by
  unfold scanURL
  rw [hfetch]

/-- C11: for every URL whose fetch fails, `scanURL` returns a `ScanResult` that
carries that URL, a non-empty `Error` string (the error of the fetch) and an
empty technologies map; the result is built from the URL and the fetch error
alone, so it is the same for every signature oracle, every browser and every
mode: neither the oracle nor the browser phase takes part. -/
theorem scanURL_fetch_failure {σ : Type} (http : Transport) (b : Browser σ) (re : Regexp)
    (staticMode : Bool) (userAgent url : String) (wappalyzerClient : Wappalyze) (err : String)
    (hfetch : fetchURLStatic http userAgent url = Except.error err) :
    (scanURL http b re staticMode userAgent url wappalyzerClient).URL = url
    ∧ (scanURL http b re staticMode userAgent url wappalyzerClient).Error = err
    ∧ (scanURL http b re staticMode userAgent url wappalyzerClient).Error ≠ ""
    ∧ (∀ name : String,
        (scanURL http b re staticMode userAgent url wappalyzerClient).Technologies name = none)
    ∧ scanURL http b re staticMode userAgent url wappalyzerClient
        = { URL := url, Technologies := Technologies.empty, Mode := "", Error := err }
    ∧ (∀ (τ : Type) (b2 : Browser τ) (re2 : Regexp) (mode2 : Bool) (client2 : Wappalyze),
        scanURL http b2 re2 mode2 userAgent url client2
          = scanURL http b re staticMode userAgent url wappalyzerClient) := by
  have hres := scanURL_of_fetch_error http b re staticMode userAgent url wappalyzerClient err
    hfetch
  have hne : err ≠ "" := Fetch_error_nonempty http userAgent url err hfetch
  rw [hres]
  refine ⟨rfl, rfl, hne, fun _ => rfl, rfl, ?_⟩
  intro τ b2 re2 mode2 client2
  exact scanURL_of_fetch_error http b2 re2 mode2 userAgent url client2 err hfetch

/-- Witness of C11: the request to `https://unreachable.example` fails in
`Client.Do`; the result carries the URL, the wrapped error and no technology. -/
theorem scanURL_fetch_failure_witness :
    fetchURLStatic failingTransport "Mozilla/5.0" "https://unreachable.example"
      = Except.error "request failed: dial tcp: no such host"
    ∧ (scanURL failingTransport (recordingPage stubAnswer (versionText "v2.3.1-beta"))
        stubRegexp false "Mozilla/5.0" "https://unreachable.example" stubClient).Error
      = "request failed: dial tcp: no such host"
    ∧ (scanURL failingTransport (recordingPage stubAnswer (versionText "v2.3.1-beta"))
        stubRegexp false "Mozilla/5.0" "https://unreachable.example" stubClient).Technologies
        "PHP" = none :=
  ⟨by rfl,
   (scanURL_fetch_failure failingTransport (recordingPage stubAnswer (versionText "v2.3.1-beta"))
      stubRegexp false "Mozilla/5.0" "https://unreachable.example" stubClient
      "request failed: dial tcp: no such host" (by rfl)).2.1,
   (scanURL_fetch_failure failingTransport (recordingPage stubAnswer (versionText "v2.3.1-beta"))
      stubRegexp false "Mozilla/5.0" "https://unreachable.example" stubClient
      "request failed: dial tcp: no such host" (by rfl)).2.2.2.1 "PHP"⟩

theorem splitFields_no_sep (sep : Char) :
    ∀ l : List Char, sep ∉ l → splitFields sep l = [l] := by
  intro l
  induction l with
  | nil =>
    intro _
    rfl
  | cons c cs ih =>
    intro h
    simp only [List.mem_cons, not_or] at h
    have hc : ¬ c = sep := fun e => h.1 e.symm
    rw [splitFields, if_neg hc, ih h.2]

theorem splitFields_append_sep (sep : Char) (l2 : List Char) :
    ∀ l1 : List Char, sep ∉ l1 →
      splitFields sep (l1 ++ sep :: l2) = l1 :: splitFields sep l2 := by
  intro l1
  induction l1 with
  | nil =>
    intro _
    simp [splitFields]
  | cons c cs ih =>
    intro h
    simp only [List.mem_cons, not_or] at h
    have hc : ¬ c = sep := fun e => h.1 e.symm
    rw [List.cons_append, splitFields, if_neg hc, ih h.2]

theorem SplitColon_name (name : String) (h : ':' ∉ name.data) :
    SplitColon (renderEntry (name, none)) = [name] := by
  simp only [SplitColon, renderEntry]
  rw [splitFields_no_sep ':' name.data h]
  rfl

theorem SplitColon_name_version (name version : String) (hn : ':' ∉ name.data)
    (hv : ':' ∉ version.data) :
    SplitColon (renderEntry (name, some version)) = [name, version] := by
  simp only [SplitColon, renderEntry]
  have hd : (name ++ ":" ++ version).data = name.data ++ ':' :: version.data := by
    simp [String.data_append]
  rw [hd, splitFields_append_sep ':' version.data name.data hn,
    splitFields_no_sep ':' version.data hv]
  rfl

theorem formatSimpleFrom_render :
    ∀ (entries : List (String × Option String)) (m : Technologies),
      (∀ e ∈ entries, ':' ∉ e.1.data ∧ ∀ v, e.2 = some v → ':' ∉ v.data) →
      formatSimpleFrom (entries.map renderEntry) m = setEntries entries m := by
  intro entries
  induction entries with
  | nil =>
    intro m _
    rfl
  | cons e rest ih =>
    intro m h
    obtain ⟨name, ov⟩ := e
    have he := h (name, ov) (List.mem_cons_self _ _)
    have hrest : ∀ e ∈ rest, ':' ∉ e.1.data ∧ ∀ v, e.2 = some v → ':' ∉ v.data :=
      fun e hm => h e (List.mem_cons_of_mem _ hm)
    rw [List.map_cons, formatSimpleFrom, setEntries]
    cases ov with
    | none =>
      rw [SplitColon_name name he.1]
      simp only []
      exact ih _ hrest
    | some v =>
      rw [SplitColon_name_version name v he.1 (he.2 v rfl)]
      simp only []
      exact ih _ hrest

theorem setEntries_not_mem (name : String) :
    ∀ (entries : List (String × Option String)) (m : Technologies),
      name ∉ entries.map Prod.fst → setEntries entries m name = m name := by
  intro entries
  induction entries with
  | nil =>
    intro m _
    rfl
  | cons e rest ih =>
    intro m h
    simp only [List.map_cons, List.mem_cons, not_or] at h
    rw [setEntries, ih _ h.2]
    exact Technologies.set_other _ _ _ _ h.1

theorem setEntries_mem (name : String) (version : Option String) :
    ∀ (entries : List (String × Option String)) (m : Technologies),
      (entries.map Prod.fst).Nodup → (name, version) ∈ entries →
      setEntries entries m name = some (version.getD "") := by
  intro entries
  induction entries with
  | nil =>
    intro m _ h
    simp at h
  | cons e rest ih =>
    intro m hnodup hmem
    rw [List.map_cons, List.nodup_cons] at hnodup
    rw [setEntries]
    rcases List.mem_cons.mp hmem with heq | hin
    · rw [← heq] at hnodup ⊢
      rw [setEntries_not_mem name rest _ hnodup.1]
      exact Technologies.set_same _ _ _
    · exact ih _ hnodup.2 hin

theorem scanURL_of_static {σ : Type} (http : Transport) (b : Browser σ) (re : Regexp)
    (userAgent url : String) (wappalyzerClient : Wappalyze) (headers : Headers) (body : Body)
    (hfetch : fetchURLStatic http userAgent url = Except.ok (headers, body)) :
    scanURL http b re true userAgent url wappalyzerClient
      = { URL := url,
          Technologies := formatSimpleFingerprints (wappalyzerClient.Fingerprint headers body),
          Mode := "static",
          Error := "" } := by
  unfold scanURL
  rw [hfetch]
  rfl

/-- C12, as stated, fails: in static mode the oracle entry `Foo:1:2`, the
technology `Foo` with the version `1:2`, does not give `Foo` -> `1:2`: the
technologies map of `scanURL` has no key `Foo` and holds the whole entry
`Foo:1:2` as a name without version.  And of the two entries `PHP:8.1` and
`PHP:7` of one match set only the one visited last is in the map: `PHP:8.1`
does not give `PHP` -> `8.1`. -/
theorem scanURL_static_entry_with_colon :
    (renderEntry ("Foo", some "1:2") = "Foo:1:2"
      ∧ (scanURL stubTransport offlinePage stubRegexp true "Mozilla/5.0" "https://example.com"
          colonVersionOracle).Technologies "Foo" = none
      ∧ (scanURL stubTransport offlinePage stubRegexp true "Mozilla/5.0" "https://example.com"
          colonVersionOracle).Technologies "Foo:1:2" = some "")
    ∧ (scanURL stubTransport offlinePage stubRegexp true "Mozilla/5.0" "https://example.com"
          twoEntriesOracle).Technologies "PHP" = some "7" := by
  refine ⟨⟨by rfl, by rfl, by rfl⟩, by rfl⟩

/-- C12, amended: in static mode, for every URL whose fetch succeeds, `scanURL`
returns a `ScanResult` with that URL, mode `static`, no error and the
technologies map `formatSimpleFingerprints` of the oracle's match set; the
result is the same for every browser, so no browser session takes part.  When
the match set consists of entries `name` and `name:version` whose names and
versions contain no colon, with one entry per name, the map is exactly the
match set converted to name -> version: an entry `name:version` gives
name -> version, an entry without version gives name -> empty string, and no
other name is a key.  The oracle match `PHP:8.1` for `https://example.com`
yields url `https://example.com`, mode `static`, technologies `PHP` -> `8.1`
and nothing else. -/
theorem scanURL_static_mode {σ : Type} (http : Transport) (b : Browser σ) (re : Regexp)
    (userAgent url : String) (wappalyzerClient : Wappalyze) (headers : Headers) (body : Body)
    (hfetch : fetchURLStatic http userAgent url = Except.ok (headers, body)) :
    scanURL http b re true userAgent url wappalyzerClient
      = { URL := url,
          Technologies := formatSimpleFingerprints (wappalyzerClient.Fingerprint headers body),
          Mode := "static",
          Error := "" }
    ∧ (∀ (τ : Type) (b2 : Browser τ) (re2 : Regexp),
        scanURL http b2 re2 true userAgent url wappalyzerClient
          = scanURL http b re true userAgent url wappalyzerClient)
    ∧ (∀ entries : List (String × Option String),
        wappalyzerClient.Fingerprint headers body = entries.map renderEntry →
        (∀ e ∈ entries, ':' ∉ e.1.data ∧ ∀ v, e.2 = some v → ':' ∉ v.data) →
        (entries.map Prod.fst).Nodup →
        (∀ (name : String) (version : Option String), (name, version) ∈ entries →
          (scanURL http b re true userAgent url wappalyzerClient).Technologies name
            = some (version.getD ""))
        ∧ (∀ name : String, name ∉ entries.map Prod.fst →
          (scanURL http b re true userAgent url wappalyzerClient).Technologies name = none))
    ∧ (scanURL stubTransport b re true userAgent "https://example.com" stubClient).URL
        = "https://example.com"
    ∧ (scanURL stubTransport b re true userAgent "https://example.com" stubClient).Mode
        = "static"
    ∧ (scanURL stubTransport b re true userAgent "https://example.com" stubClient).Error = ""
    ∧ (∀ name : String,
        (scanURL stubTransport b re true userAgent "https://example.com" stubClient).Technologies
          name = if name = "PHP" then some "8.1" else none) := by
  have hres := scanURL_of_static http b re userAgent url wappalyzerClient headers body hfetch
  have hstub := scanURL_of_static stubTransport b re userAgent "https://example.com" stubClient
    [("X-Powered-By", ["PHP/8.1"])] [] rfl
  refine ⟨hres, ?_, ?_, ?_, ?_, ?_, ?_⟩
  · intro τ b2 re2
    rw [hres]
    exact scanURL_of_static http b2 re2 userAgent url wappalyzerClient headers body hfetch
  · intro entries hentries hcolon hnodup
    rw [hres]
    simp only [formatSimpleFingerprints]
    rw [hentries, formatSimpleFrom_render entries _ hcolon]
    exact ⟨fun name version hmem => setEntries_mem name version entries _ hnodup hmem,
      fun name hn => setEntries_not_mem name entries _ hn⟩
  · rw [hstub]
  · rw [hstub]
  · rw [hstub]
  · intro name
    rw [hstub]
    have hf : formatSimpleFingerprints (stubClient.Fingerprint [("X-Powered-By", ["PHP/8.1"])] [])
        = Technologies.empty.set "PHP" "8.1" := by rfl
    simp only [hf, Technologies.set, Technologies.empty]

/-- Witness of C12 (amended): the oracle matches `PHP:8.1` on the response of
`https://example.com`; in static mode the technologies map has `PHP` at `8.1`
and no entry for `jQuery`, which only the browser phase would detect. -/
theorem scanURL_static_mode_witness :
    fetchURLStatic stubTransport "Mozilla/5.0" "https://example.com"
      = Except.ok ([("X-Powered-By", ["PHP/8.1"])], [])
    ∧ (scanURL stubTransport (recordingPage stubAnswer (versionText "v2.3.1-beta")) stubRegexp
        true "Mozilla/5.0" "https://example.com" stubClient).Technologies "PHP" = some "8.1"
    ∧ (scanURL stubTransport (recordingPage stubAnswer (versionText "v2.3.1-beta")) stubRegexp
        true "Mozilla/5.0" "https://example.com" stubClient).Technologies "jQuery" = none :=
  ⟨by rfl,
   ((scanURL_static_mode stubTransport (recordingPage stubAnswer (versionText "v2.3.1-beta"))
      stubRegexp "Mozilla/5.0" "https://example.com" stubClient
      [("X-Powered-By", ["PHP/8.1"])] [] (by rfl)).2.2.1
      [("PHP", some "8.1")] (by rfl) (by decide) (by decide)).1 "PHP" (some "8.1")
      (List.mem_cons_self _ _),
   ((scanURL_static_mode stubTransport (recordingPage stubAnswer (versionText "v2.3.1-beta"))
      stubRegexp "Mozilla/5.0" "https://example.com" stubClient
      [("X-Powered-By", ["PHP/8.1"])] [] (by rfl)).2.2.1
      [("PHP", some "8.1")] (by rfl) (by decide) (by decide)).2 "jQuery" (by decide)⟩

/-! ### C13 -/

/-- C13, the code at the failing inputs: with standard input a pipe that carries
no URL line, `getURLs` returns the empty URL list without error, also when URLs
are given as arguments; with a list file that holds only a comment, it returns
the empty list without error as well.  Only the branch for command-line
arguments checks that there is a URL: without any source the error
`no URLs provided` is returned. -/
theorem getURLs_empty_without_error :
    getURLs pipedWithoutURLs "" [] = Except.ok []
    ∧ getURLs pipedWithoutURLs "" ["https://example.com"] = Except.ok []
    ∧ getURLs commentOnlyFile "urls.txt" [] = Except.ok []
    ∧ getURLs commentOnlyFile "" []
        = Except.error "no URLs provided (use command-line args, -l flag, or pipe input)" := by
  refine ⟨by rfl, by rfl, by rfl, by rfl⟩

/-! ### C14 -/

theorem drainStep_ok {ω : Type} (w : OutputWriter ω) (d : DrainState ω) (result : ScanResult)
    (s1 : ω) (h : w.WriteResult d.writer result = (none, s1)) :
    drainStep w d result
      = { d with writer := s1, written := d.written ++ [result], count := d.count + 1 } := by
  unfold drainStep
  rw [h]

theorem drainStep_error {ω : Type} (w : OutputWriter ω) (d : DrainState ω) (result : ScanResult)
    (s1 : ω) (err : String) (h : w.WriteResult d.writer result = (some err, s1)) :
    drainStep w d result
      = { d with writer := s1, written := d.written ++ [result],
                 errorChan := some ("failed to write result: " ++ err), broke := true } := by
  unfold drainStep
  rw [h]

theorem drainLoop_writeAll {ω : Type} (w : OutputWriter ω) (rest : List ScanResult) :
    ∀ (pre : List ScanResult) (d : DrainState ω) (s1 : ω), d.broke = false →
      writeAll w pre d.writer = some s1 →
      drainLoop w (pre ++ rest) d
        = drainLoop w rest { d with writer := s1, written := d.written ++ pre,
                                    count := d.count + pre.length } := by
  intro pre
  induction pre with
  | nil =>
    intro d s1 _ h
    simp only [writeAll, Option.some.injEq] at h
    simp [← h]
  | cons r pre ih =>
    intro d s1 hb h
    rw [writeAll] at h
    rcases hw : w.WriteResult d.writer r with ⟨_ | err, s2⟩
    · rw [hw] at h
      simp only [] at h
      rw [List.cons_append, drainLoop]
      simp only [drainStep_ok w d r s2 hw, hb, Bool.false_eq_true, if_false]
      rw [ih { writer := s2, count := d.count + 1, errorChan := d.errorChan, broke := false,
               written := d.written ++ [r] } s1 rfl h]
      simp [Nat.add_assoc, Nat.add_comm 1]
    · rw [hw] at h
      simp at h

theorem writeAll_none_split {ω : Type} (w : OutputWriter ω) :
    ∀ (results : List ScanResult) (s0 : ω), writeAll w results s0 = none →
      ∃ (pre : List ScanResult) (r : ScanResult) (post : List ScanResult) (s1 s2 : ω)
        (err : String), results = pre ++ r :: post ∧ writeAll w pre s0 = some s1
          ∧ w.WriteResult s1 r = (some err, s2) := by
  intro results
  induction results with
  | nil =>
    intro s0 h
    simp [writeAll] at h
  | cons r rest ih =>
    intro s0 h
    rw [writeAll] at h
    rcases hw : w.WriteResult s0 r with ⟨_ | err, s2⟩
    · rw [hw] at h
      simp only [] at h
      obtain ⟨pre, r1, post, s1, s3, err, hsplit, hpre, hfail⟩ := ih s2 h
      refine ⟨r :: pre, r1, post, s1, s3, err, ?_, ?_, hfail⟩
      · rw [hsplit, List.cons_append]
      · rw [writeAll, hw]
        exact hpre
    · exact ⟨[], r, rest, s0, s2, err, rfl, rfl, hw⟩

/-- C14: for every sequence of completed results handed to the drain loop of
`scanURLsConcurrent`: if some sink write fails, the `WriteResult` calls made are
exactly those for the results up to and including the first failing one, none
after it, and the function returns the error `failed to write result:` wrapping
that write failure; if no write fails, `WriteResult` is called exactly once for
every result, in order, and the function returns `nil`.  One of the two cases
always applies. -/
theorem drainLoop_stops_at_first_failure {ω : Type} (w : OutputWriter ω) (s0 : ω)
    (results : List ScanResult) :
    (∀ (pre : List ScanResult) (r : ScanResult) (post : List ScanResult) (s1 s2 : ω)
        (err : String),
        results = pre ++ r :: post → writeAll w pre s0 = some s1 →
        w.WriteResult s1 r = (some err, s2) →
        (drainLoop w results { writer := s0 }).written = pre ++ [r]
        ∧ (drainLoop w results { writer := s0 }).errorChan
            = some ("failed to write result: " ++ err)
        ∧ (drainLoop w results { writer := s0 }).writer = s2
        ∧ (drainLoop w results { writer := s0 }).count = pre.length)
    ∧ (∀ s1 : ω, writeAll w results s0 = some s1 →
        (drainLoop w results { writer := s0 }).written = results
        ∧ (drainLoop w results { writer := s0 }).errorChan = none
        ∧ (drainLoop w results { writer := s0 }).writer = s1
        ∧ (drainLoop w results { writer := s0 }).count = results.length)
    ∧ ((∃ s1 : ω, writeAll w results s0 = some s1)
        ∨ ∃ (pre : List ScanResult) (r : ScanResult) (post : List ScanResult) (s1 s2 : ω)
            (err : String), results = pre ++ r :: post ∧ writeAll w pre s0 = some s1
              ∧ w.WriteResult s1 r = (some err, s2)) := by
  refine ⟨?_, ?_, ?_⟩
  · intro pre r post s1 s2 err hsplit hpre hfail
    rw [hsplit, drainLoop_writeAll w (r :: post) pre { writer := s0 } s1 rfl hpre, drainLoop]
    simp only []
    rw [drainStep_error w _ r s2 err hfail]
    simp
  · intro s1 hall
    have h := drainLoop_writeAll w [] results { writer := s0 } s1 rfl hall
    rw [List.append_nil] at h
    rw [h]
    simp [drainLoop]
  · rcases hres : writeAll w results s0 with _ | s1
    · exact Or.inr (writeAll_none_split w results s0 hres)
    · exact Or.inl ⟨s1, rfl⟩

/-- Witness of C14: a sink with room for one result receives three results; the
second write fails, the third result is never written, and the function returns
the wrapped error. -/
theorem drainLoop_stops_at_first_failure_witness :
    writeAll (boundedWriter 1) [stubScan "a"] [] = some ["a"]
    ∧ (drainLoop (boundedWriter 1) [stubScan "a", stubScan "b", stubScan "c"]
        { writer := [] }).written = [stubScan "a", stubScan "b"]
    ∧ (drainLoop (boundedWriter 1) [stubScan "a", stubScan "b", stubScan "c"]
        { writer := [] }).errorChan
        = some "failed to write result: no space left on device" :=
  ⟨by rfl,
   ((drainLoop_stops_at_first_failure (boundedWriter 1) []
      [stubScan "a", stubScan "b", stubScan "c"]).1
      [stubScan "a"] (stubScan "b") [stubScan "c"] ["a"] ["a"] "no space left on device"
      (by rfl) (by rfl) (by rfl)).1,
   ((drainLoop_stops_at_first_failure (boundedWriter 1) []
      [stubScan "a", stubScan "b", stubScan "c"]).1
      [stubScan "a"] (stubScan "b") [stubScan "c"] ["a"] ["a"] "no space left on device"
      (by rfl) (by rfl) (by rfl)).2.1⟩

/-! ### C15 -/

theorem pending_set (w1 : Worker) :
    ∀ (workers : List Worker) (i : Nat) (w0 : Worker), workers[i]? = some w0 →
      ((pending (workers.set i w1) : List ScanResult) : Multiset ScanResult) + ↑w0.held
        = ↑(pending workers) + ↑w1.held := by
  intro workers
  induction workers with
  | nil =>
    intro i w0 h
    simp at h
  | cons x rest ih =>
    intro i w0 h
    cases i with
    | zero =>
      simp only [List.getElem?_cons_zero, Option.some.injEq] at h
      rw [h]
      simp only [List.set_cons_zero, pending, ← Multiset.coe_add]
      abel
    | succ j =>
      simp only [List.getElem?_cons_succ] at h
      have hj := ih j w0 h
      simp only [List.set_cons_succ, pending, ← Multiset.coe_add]
      rw [add_assoc, hj, add_assoc]

theorem all_isDone_getElem (workers : List Worker) (h : workers.all Worker.isDone = true)
    (i : Nat) (w0 : Worker) (hi : workers[i]? = some w0) : w0.isDone = true := by
  rw [List.all_eq_true] at h
  exact h w0 (List.getElem?_mem hi)

theorem Sched.step_claim {ω : Type} (scan : String → ScanResult) (w : OutputWriter ω)
    (concurrency : Nat) (st st1 : Sched ω) (i : Nat)
    (h : Sched.step scan w concurrency st (Event.claim i) = some st1) :
    ∃ (url : String) (rest : List String), st.workers[i]? = some Worker.receiving
      ∧ st.urlChan = url :: rest
      ∧ st1 = { st with urlChan := rest,
                        workers := st.workers.set i (Worker.sending (scan url)) } := by
  simp only [Sched.step] at h
  split at h
  · rename_i url rest hw hu
    exact ⟨url, rest, hw, hu, (Option.some.inj h).symm⟩
  · simp at h

theorem Sched.step_send {ω : Type} (scan : String → ScanResult) (w : OutputWriter ω)
    (concurrency : Nat) (st st1 : Sched ω) (i : Nat)
    (h : Sched.step scan w concurrency st (Event.send i) = some st1) :
    ∃ result : ScanResult, st.workers[i]? = some (Worker.sending result)
      ∧ st.resultChan.length < concurrency
      ∧ st1 = { st with resultChan := st.resultChan ++ [result],
                        workers := st.workers.set i Worker.receiving } := by
  simp only [Sched.step] at h
  split at h
  · rename_i result hw
    split at h
    · rename_i hlen
      exact ⟨result, hw, hlen, (Option.some.inj h).symm⟩
    · simp at h
  · simp at h

theorem Sched.step_exit {ω : Type} (scan : String → ScanResult) (w : OutputWriter ω)
    (concurrency : Nat) (st st1 : Sched ω) (i : Nat)
    (h : Sched.step scan w concurrency st (Event.exit i) = some st1) :
    st.workers[i]? = some Worker.receiving ∧ st.urlChan = []
      ∧ st1 = { st with workers := st.workers.set i Worker.done } := by
  simp only [Sched.step] at h
  split at h
  · rename_i hw hu
    exact ⟨hw, hu, (Option.some.inj h).symm⟩
  · simp at h

theorem Sched.step_close {ω : Type} (scan : String → ScanResult) (w : OutputWriter ω)
    (concurrency : Nat) (st st1 : Sched ω)
    (h : Sched.step scan w concurrency st Event.close = some st1) :
    st.closed = false ∧ st.workers.all Worker.isDone = true
      ∧ st1 = { st with closed := true } := by
  simp only [Sched.step] at h
  split at h
  · rename_i hc
    exact ⟨hc.1, hc.2, (Option.some.inj h).symm⟩
  · simp at h

theorem Sched.step_receive {ω : Type} (scan : String → ScanResult) (w : OutputWriter ω)
    (concurrency : Nat) (st st1 : Sched ω)
    (h : Sched.step scan w concurrency st Event.receive = some st1) :
    ∃ (result : ScanResult) (rest : List ScanResult), st.returned = false
      ∧ st.resultChan = result :: rest
      ∧ st1 = { st with resultChan := rest, drain := drainStep w st.drain result,
                        returned := (drainStep w st.drain result).broke } := by
  simp only [Sched.step] at h
  split at h
  · simp at h
  · rename_i hr
    split at h
    · rename_i result rest hc
      exact ⟨result, rest, by simpa using hr, hc, (Option.some.inj h).symm⟩
    · simp at h

theorem Sched.step_finish {ω : Type} (scan : String → ScanResult) (w : OutputWriter ω)
    (concurrency : Nat) (st st1 : Sched ω)
    (h : Sched.step scan w concurrency st Event.finish = some st1) :
    st.returned = false ∧ st.closed = true ∧ st.resultChan = []
      ∧ st1 = { st with returned := true } := by
  simp only [Sched.step] at h
  split at h
  · rename_i hc
    exact ⟨hc.1, hc.2.1, List.isEmpty_iff.mp hc.2.2, (Option.some.inj h).symm⟩
  · simp at h

theorem drainStep_written {ω : Type} (w : OutputWriter ω) (d : DrainState ω)
    (result : ScanResult) : (drainStep w d result).written = d.written ++ [result] := by
  unfold drainStep
  rcases w.WriteResult d.writer result with ⟨_ | err, s1⟩ <;> rfl

theorem drainStep_broke {ω : Type} (w : OutputWriter ω) (d : DrainState ω)
    (result : ScanResult) (hd : d.broke = true → d.errorChan ≠ none)
    (h : (drainStep w d result).broke = true) : (drainStep w d result).errorChan ≠ none := by
  rcases hw : w.WriteResult d.writer result with ⟨_ | err, s1⟩
  · rw [drainStep_ok w d result s1 hw] at h ⊢
    exact hd h
  · rw [drainStep_error w d result s1 err hw]
    simp

theorem getElem?_set_done (workers : List Worker) (i j : Nat) (w1 : Worker)
    (hw1 : w1.isDone = false) (h : (workers.set i w1)[j]? = some Worker.done) :
    workers[j]? = some Worker.done := by
  rw [List.getElem?_set] at h
  split at h
  · split at h
    · simp only [Option.some.injEq] at h
      rw [h] at hw1
      simp [Worker.isDone] at hw1
    · simp at h
  · exact h

theorem Sched.Inv.not_closed_of_active {ω : Type} {scan : String → ScanResult}
    {urls : List String} {concurrency : Nat} {st : Sched ω}
    (hinv : Sched.Inv scan urls concurrency st) (i : Nat) (w0 : Worker)
    (hi : st.workers[i]? = some w0) (hw0 : w0.isDone = false) : st.closed = false := by
  rcases hc : st.closed with _ | _
  · rfl
  · have hd := all_isDone_getElem st.workers (hinv.closedDone hc) i w0 hi
    rw [hw0] at hd
    exact absurd hd (by decide)

theorem Sched.Inv.step {ω : Type} (scan : String → ScanResult) (w : OutputWriter ω)
    (urls : List String) (concurrency : Nat) (st st1 : Sched ω) (e : Event)
    (hinv : Sched.Inv scan urls concurrency st)
    (hstep : Sched.step scan w concurrency st e = some st1) :
    Sched.Inv scan urls concurrency st1 := by
  cases e with
  | claim i =>
    obtain ⟨url, rest, hw, hu, hst1⟩ := Sched.step_claim scan w concurrency st st1 i hstep
    have hopen := hinv.not_closed_of_active i _ hw rfl
    have hp := pending_set (Worker.sending (scan url)) st.workers i _ hw
    simp only [Worker.held, Multiset.coe_nil, add_zero] at hp
    have hacc := hinv.accounted
    rw [hu] at hacc
    have hcons : ((List.map scan (url :: rest) : List ScanResult) : Multiset ScanResult)
        = ↑[scan url] + ↑(rest.map scan) := by
      rw [Multiset.coe_add]
      rfl
    rw [hcons] at hacc
    rw [hst1]
    refine ⟨?_, ?_, ?_, ?_, hinv.brokeError, hinv.returnedWhy⟩
    · simp only [List.length_set]
      exact hinv.poolSize
    · simp only []
      rw [hp, ← hacc]
      abel
    · intro hc
      simp only [] at hc
      rw [hopen] at hc
      exact absurd hc (by decide)
    · intro j hj
      simp only [] at hj
      have hd := hinv.doneEmpty j
        (getElem?_set_done st.workers i j (Worker.sending (scan url)) rfl hj)
      rw [hu] at hd
      exact absurd hd (by simp)
  | send i =>
    obtain ⟨result, hw, _, hst1⟩ := Sched.step_send scan w concurrency st st1 i hstep
    have hopen := hinv.not_closed_of_active i _ hw rfl
    have hp := pending_set Worker.receiving st.workers i _ hw
    simp only [Worker.held, Multiset.coe_nil, add_zero] at hp
    have hacc := hinv.accounted
    rw [hst1]
    refine ⟨?_, ?_, ?_, ?_, hinv.brokeError, ?_⟩
    · simp only [List.length_set]
      exact hinv.poolSize
    · simp only []
      rw [← hacc, ← hp, ← Multiset.coe_add st.resultChan [result]]
      abel
    · intro hc
      simp only [] at hc
      rw [hopen] at hc
      exact absurd hc (by decide)
    · intro j hj
      simp only [] at hj
      exact hinv.doneEmpty j (getElem?_set_done st.workers i j Worker.receiving rfl hj)
    · intro hr
      simp only [] at hr ⊢
      rcases hinv.returnedWhy hr with he | ⟨hc, _⟩
      · exact Or.inl he
      · rw [hopen] at hc
        exact absurd hc (by decide)
  | exit i =>
    obtain ⟨hw, hu, hst1⟩ := Sched.step_exit scan w concurrency st st1 i hstep
    have hopen := hinv.not_closed_of_active i _ hw rfl
    have hp := pending_set Worker.done st.workers i _ hw
    simp only [Worker.held, Multiset.coe_nil, add_zero] at hp
    rw [hst1]
    refine ⟨?_, ?_, ?_, ?_, hinv.brokeError, hinv.returnedWhy⟩
    · simp only [List.length_set]
      exact hinv.poolSize
    · simp only []
      rw [hp]
      exact hinv.accounted
    · intro hc
      simp only [] at hc
      rw [hopen] at hc
      exact absurd hc (by decide)
    · intro _ _
      exact hu
  | close =>
    obtain ⟨hopen, hall, hst1⟩ := Sched.step_close scan w concurrency st st1 hstep
    rw [hst1]
    refine ⟨hinv.poolSize, hinv.accounted, fun _ => hall, hinv.doneEmpty, hinv.brokeError, ?_⟩
    intro hr
    simp only [] at hr ⊢
    rcases hinv.returnedWhy hr with he | ⟨hc, _⟩
    · exact Or.inl he
    · rw [hopen] at hc
      exact absurd hc (by decide)
  | receive =>
    obtain ⟨result, rest, _, hc, hst1⟩ := Sched.step_receive scan w concurrency st st1 hstep
    have hacc := hinv.accounted
    rw [hc] at hacc
    have hcons : ((result :: rest : List ScanResult) : Multiset ScanResult)
        = ↑[result] + ↑rest := by
      rw [Multiset.coe_add]
      rfl
    rw [hcons] at hacc
    rw [hst1]
    refine ⟨hinv.poolSize, ?_, hinv.closedDone, hinv.doneEmpty, ?_, ?_⟩
    · simp only []
      rw [drainStep_written, ← hacc, ← Multiset.coe_add st.drain.written [result]]
      abel
    · exact drainStep_broke w st.drain result hinv.brokeError
    · intro hr
      exact Or.inl (drainStep_broke w st.drain result hinv.brokeError hr)
  | finish =>
    obtain ⟨_, hclosed, hempty, hst1⟩ := Sched.step_finish scan w concurrency st st1 hstep
    rw [hst1]
    exact ⟨hinv.poolSize, hinv.accounted, hinv.closedDone, hinv.doneEmpty, hinv.brokeError,
      fun _ => Or.inr ⟨hclosed, hempty⟩⟩

theorem Sched.Inv.exec {ω : Type} (scan : String → ScanResult) (w : OutputWriter ω)
    (urls : List String) (concurrency : Nat) :
    ∀ (schedule : List Event) (st st1 : Sched ω), Sched.Inv scan urls concurrency st →
      Sched.exec scan w concurrency schedule st = some st1 →
      Sched.Inv scan urls concurrency st1 := by
  intro schedule
  induction schedule with
  | nil =>
    intro st st1 hinv h
    simp only [Sched.exec, Option.some.injEq] at h
    rw [← h]
    exact hinv
  | cons e rest ih =>
    intro st st1 hinv h
    rw [Sched.exec] at h
    rcases hs : Sched.step scan w concurrency st e with _ | st2
    · rw [hs] at h
      simp at h
    · rw [hs] at h
      exact ih st2 st1 (Sched.Inv.step scan w urls concurrency st st2 e hinv hs) h

theorem ExecuteDetectionRules_fixed_state {σ : Type} (b : Browser σ)
    (answer : String → Except String Bool) (hbool : ∀ s q, (b.evalBool s q).1 = answer q)
    (rules : List DetectionRule) (s1 s2 : σ) :
    (ExecuteDetectionRules b rules s1).1 = (ExecuteDetectionRules b rules s2).1 := by
  rw [Bool.eq_iff_iff, ExecuteDetectionRules_fixed_answers b answer hbool rules s1,
    ExecuteDetectionRules_fixed_answers b answer hbool rules s2]

theorem ExtractVersion_fixed_state {σ : Type} (b : Browser σ) (re : Regexp)
    (text : String → Except String String) (hstr : ∀ s q, (b.evalString s q).1 = text q) :
    ∀ (rules : List VersionExtraction) (s1 s2 : σ),
      (ExtractVersion b re rules s1).1 = (ExtractVersion b re rules s2).1 := by
  intro rules
  induction rules with
  | nil =>
    intro s1 s2
    rfl
  | cons rule rest ih =>
    intro s1 s2
    have hev : ∀ (s : σ) (q : String), b.evalString s q = (text q, (b.evalString s q).2) :=
      fun s q => Prod.ext (hstr s q) rfl
    rw [ExtractVersion, ExtractVersion]
    by_cases h1 : rule.Typ = "dom-attribute"
    · simp only [if_pos h1]
      rw [hev s1, hev s2]
      rcases text (attributeScript rule.Selector rule.Attribute) with e | version
      · exact ih _ _
      · by_cases hv : version = ""
        · simp only [hv, ne_eq, not_true_eq_false, if_false]
          exact ih _ _
        · simp only [hv, ne_eq, not_false_eq_true, if_true]
    · by_cases h2 : rule.Typ = "js-eval"
      · simp only [if_neg h1, if_pos h2]
        rw [hev s1, hev s2]
        rcases text rule.Query with e | version
        · exact ih _ _
        · by_cases hv : version = ""
          · simp only [hv, ne_eq, not_true_eq_false, if_false]
            exact ih _ _
          · simp only [hv, ne_eq, not_false_eq_true, if_true]
      · simp only [if_neg h1, if_neg h2]
        exact ih _ _

theorem enhanceApp_fixed_state {σ : Type} (b : Browser σ) (re : Regexp)
    (answer : String → Except String Bool) (text : String → Except String String)
    (hbool : ∀ s q, (b.evalBool s q).1 = answer q)
    (hstr : ∀ s q, (b.evalString s q).1 = text q)
    (name : String) (fingerprint : Fingerprint) (t1 t2 : Technologies) (s1 s2 : σ)
    (ht : t1 name = t2 name) :
    (enhanceApp b re name fingerprint t1 s1).1 name
      = (enhanceApp b re name fingerprint t2 s2).1 name := by
  rcases hb : fingerprint.Browser with _ | rules
  · rw [enhanceApp_no_rules b re name fingerprint t1 s1 hb,
      enhanceApp_no_rules b re name fingerprint t2 s2 hb]
    exact ht
  · rcases h1 : t1 name with _ | v0
    · have h2 : t2 name = none := by rw [← ht, h1]
      rw [enhanceApp_absent b re name fingerprint rules t1 s1 hb h1,
        enhanceApp_absent b re name fingerprint rules t2 s2 hb h2,
        ExecuteDetectionRules_fixed_state b answer hbool rules.Detection s1 s2]
      split_ifs
      · simp only [Technologies.set_same]
        rw [ExtractVersion_fixed_state b re text hstr rules.Version _
          (ExecuteDetectionRules b rules.Detection s2).2]
      · simp only []
        rw [h1, h2]
    · have h2 : t2 name = some v0 := by rw [← ht, h1]
      rw [enhanceApp_present b re name fingerprint rules t1 s1 v0 hb h1,
        enhanceApp_present b re name fingerprint rules t2 s2 v0 hb h2,
        ExtractVersion_fixed_state b re text hstr rules.Version s1 s2]
      simp only []
      split_ifs
      · simp only [Technologies.set_same]
      · rw [h1, h2]

theorem enhanceApps_fixed_order {σ : Type} (b : Browser σ) (re : Regexp)
    (answer : String → Except String Bool) (text : String → Except String String)
    (hbool : ∀ s q, (b.evalBool s q).1 = answer q)
    (hstr : ∀ s q, (b.evalString s q).1 = text q)
    (technologies : Technologies) (apps1 apps2 : List (String × Fingerprint)) (s1 s2 : σ)
    (hperm : apps1.Perm apps2) (hnodup : (apps1.map Prod.fst).Nodup) :
    (enhanceApps b re apps1 technologies s1).1 = (enhanceApps b re apps2 technologies s2).1 := by
  have hnodup2 : (apps2.map Prod.fst).Nodup := (hperm.map Prod.fst).nodup_iff.mp hnodup
  funext name
  by_cases hmem : name ∈ apps1.map Prod.fst
  · obtain ⟨⟨n, fingerprint⟩, hin, hn⟩ := List.mem_map.mp hmem
    simp only [] at hn
    rw [hn] at hin
    obtain ⟨pre1, post1, h1⟩ := List.append_of_mem hin
    obtain ⟨pre2, post2, h2⟩ := List.append_of_mem (hperm.subset hin)
    rw [h1] at hnodup
    rw [h2] at hnodup2
    obtain ⟨hb1, ha1⟩ := enhanceApps_at b re pre1 post1 name fingerprint technologies s1 hnodup
    obtain ⟨hb2, ha2⟩ := enhanceApps_at b re pre2 post2 name fingerprint technologies s2 hnodup2
    rw [h1, h2, ha1, ha2]
    exact enhanceApp_fixed_state b re answer text hbool hstr name fingerprint _ _ _ _
      (hb1.trans hb2.symm)
  · have hmem2 : name ∉ apps2.map Prod.fst := fun h =>
      hmem ((hperm.map Prod.fst).symm.subset h)
    rw [enhanceApps_other b re name apps1 technologies s1 hmem,
      enhanceApps_other b re name apps2 technologies s2 hmem2]

/-- C16: with rule evaluation a fixed function of the script (the answers of the
page do not change between evaluations), the result of `EnhanceWithVersions`,
error and technologies map, does not depend on the order in which the
applications of the fingerprint map are visited: any two visiting orders of the
same fingerprint map give the same final map. -/
theorem EnhanceWithVersions_order_independent {σ : Type} (b : Browser σ) (re : Regexp)
    (url : String) (technologies : Technologies) (apps1 apps2 : List (String × Fingerprint))
    (answer : String → Except String Bool) (text : String → Except String String)
    (hbool : ∀ s q, (b.evalBool s q).1 = answer q)
    (hstr : ∀ s q, (b.evalString s q).1 = text q)
    (hperm : apps1.Perm apps2) (hnodup : (apps1.map Prod.fst).Nodup) :
    EnhanceWithVersions b re url technologies apps1
      = EnhanceWithVersions b re url technologies apps2 := by
  unfold EnhanceWithVersions
  rcases b.navigate url with err | s
  · rfl
  · simp only []
    rw [enhanceApps_fixed_order b re answer text hbool hstr technologies apps1 apps2 s s hperm
      hnodup]

/-- Witness of C16: the stub page answers every script from fixed tables; visiting
the three stub technologies in declared order and in reverse order gives the
same result. -/
theorem EnhanceWithVersions_order_independent_witness :
    stubApps.Perm stubApps.reverse
    ∧ (stubApps.map Prod.fst).Nodup
    ∧ EnhanceWithVersions (recordingPage stubAnswer (versionText "v2.3.1-beta")) stubRegexp
        "https://example.com" stubBaseline stubApps
      = EnhanceWithVersions (recordingPage stubAnswer (versionText "v2.3.1-beta")) stubRegexp
        "https://example.com" stubBaseline stubApps.reverse :=
  ⟨(List.reverse_perm stubApps).symm, by decide,
   EnhanceWithVersions_order_independent (recordingPage stubAnswer (versionText "v2.3.1-beta"))
     stubRegexp "https://example.com" stubBaseline stubApps stubApps.reverse stubAnswer
     (versionText "v2.3.1-beta") (fun _ _ => rfl) (fun _ _ => rfl)
     (List.reverse_perm stubApps).symm (by decide)⟩

/-! ### C17 -/

theorem DetailedTechnologies.versions_set (m : DetailedTechnologies) (k : String)
    (details : TechnologyDetails) :
    (m.set k details).versions = m.versions.set k details.Version := by
  funext name
  simp only [DetailedTechnologies.versions, DetailedTechnologies.set, Technologies.set]
  split_ifs <;> rfl

theorem formatDetailedFrom_render :
    ∀ (entries : List ((String × Option String) × AppInfo)) (m : DetailedTechnologies),
      (∀ e ∈ entries, ':' ∉ e.1.1.data ∧ ∀ v, e.1.2 = some v → ':' ∉ v.data) →
      (formatDetailedFrom (entries.map (fun e => (renderEntry e.1, e.2))) m).versions
        = setEntries (entries.map Prod.fst) m.versions := by
  intro entries
  induction entries with
  | nil =>
    intro m _
    rfl
  | cons e rest ih =>
    intro m h
    obtain ⟨⟨name, ov⟩, info⟩ := e
    have he := h ((name, ov), info) (List.mem_cons_self _ _)
    have hrest : ∀ e ∈ rest, ':' ∉ e.1.1.data ∧ ∀ v, e.1.2 = some v → ':' ∉ v.data :=
      fun e hm => h e (List.mem_cons_of_mem _ hm)
    simp only [List.map_cons, formatDetailedFrom, setEntries]
    cases ov with
    | none =>
      rw [SplitColon_name name he.1, ih _ hrest, DetailedTechnologies.versions_set]
      rfl
    | some v =>
      rw [SplitColon_name_version name v he.1 (he.2 v rfl), ih _ hrest,
        DetailedTechnologies.versions_set]
      rfl

theorem setEntries_perm (entries1 entries2 : List (String × Option String))
    (m : Technologies) (hperm : entries1.Perm entries2)
    (hnodup : (entries1.map Prod.fst).Nodup) :
    setEntries entries1 m = setEntries entries2 m := by
  have hnodup2 : (entries2.map Prod.fst).Nodup := (hperm.map Prod.fst).nodup_iff.mp hnodup
  funext name
  by_cases hmem : name ∈ entries1.map Prod.fst
  · obtain ⟨⟨n, ov⟩, hin, hn⟩ := List.mem_map.mp hmem
    simp only [] at hn
    rw [hn] at hin
    rw [setEntries_mem name ov entries1 m hnodup hin,
      setEntries_mem name ov entries2 m hnodup2 (hperm.subset hin)]
  · have hmem2 : name ∉ entries2.map Prod.fst := fun h =>
      hmem ((hperm.map Prod.fst).symm.subset h)
    rw [setEntries_not_mem name entries1 m hmem, setEntries_not_mem name entries2 m hmem2]

theorem formatDetailed_versions_eq_simple (simple : List (String × Option String))
    (detailed : List ((String × Option String) × AppInfo))
    (hperm : simple.Perm (detailed.map Prod.fst))
    (hcolon : ∀ e ∈ simple, ':' ∉ e.1.data ∧ ∀ v, e.2 = some v → ':' ∉ v.data)
    (hnodup : (simple.map Prod.fst).Nodup) :
    (formatDetailedFingerprints (detailed.map (fun e => (renderEntry e.1, e.2)))).versions
      = formatSimpleFingerprints (simple.map renderEntry) := by
  have hcolon2 : ∀ e ∈ detailed, ':' ∉ e.1.1.data ∧ ∀ v, e.1.2 = some v → ':' ∉ v.data := by
    intro e he
    exact hcolon e.1 (hperm.symm.subset (List.mem_map_of_mem Prod.fst he))
  unfold formatDetailedFingerprints formatSimpleFingerprints
  rw [formatDetailedFrom_render detailed _ hcolon2, formatSimpleFrom_render simple _ hcolon]
  exact (setEntries_perm simple (detailed.map Prod.fst) _ hperm hnodup).symm

theorem processURLDetailed_of_fetch_error {σ : Type} (http : Transport) (b : Browser σ)
    (re : Regexp) (staticMode : Bool) (userAgent url : String)
    (wappalyzerClient : WappalyzeInfo) (err : String)
    (hfetch : fetchURLStatic http userAgent url = Except.error err) :
    (processURLDetailed http b re staticMode userAgent url wappalyzerClient).Technologies
      = fun _ => none := by
  unfold processURLDetailed
  rw [hfetch]

theorem processURLDetailed_static {σ : Type} (http : Transport) (b : Browser σ)
    (re : Regexp) (userAgent url : String) (wappalyzerClient : WappalyzeInfo)
    (headers : Headers) (body : Body)
    (hfetch : fetchURLStatic http userAgent url = Except.ok (headers, body)) :
    (processURLDetailed http b re true userAgent url wappalyzerClient).Technologies
      = formatDetailedFingerprints (wappalyzerClient.FingerprintWithInfo headers body) := by
  unfold processURLDetailed
  rw [hfetch]
  rfl

theorem processURLDetailed_hybrid {σ : Type} (http : Transport) (b : Browser σ)
    (re : Regexp) (userAgent url : String) (wappalyzerClient : WappalyzeInfo)
    (headers : Headers) (body : Body)
    (hfetch : fetchURLStatic http userAgent url = Except.ok (headers, body)) (name : String) :
    (processURLDetailed http b re false userAgent url wappalyzerClient).Technologies name
      = match (EnhanceWithVersions b re url
            (formatDetailedFingerprints
              (wappalyzerClient.FingerprintWithInfo headers body)).versions
            wappalyzerClient.GetFingerprints).2 name,
          formatDetailedFingerprints (wappalyzerClient.FingerprintWithInfo headers body) name with
        | some version, some details => some { details with Version := version }
        | _, old => old := by
  unfold processURLDetailed
  rw [hfetch]
  rfl

theorem scanURL_hybrid {σ : Type} (http : Transport) (b : Browser σ) (re : Regexp)
    (userAgent url : String) (wappalyzerClient : Wappalyze) (headers : Headers) (body : Body)
    (hfetch : fetchURLStatic http userAgent url = Except.ok (headers, body)) :
    (scanURL http b re false userAgent url wappalyzerClient).Technologies
      = (EnhanceWithVersions b re url
          (formatSimpleFingerprints (wappalyzerClient.Fingerprint headers body))
          wappalyzerClient.GetFingerprints).2 := by
  unfold scanURL
  rw [hfetch]
  rfl

/-- C17, as stated, fails.  In hybrid mode the stub page lets the browser phase
detect `jQuery`, which is not in the static baseline: `scanURL` reports it with
version `1.2`, the detailed pipeline, which only updates the versions of the
technologies it already has, does not report it.  In static mode the match
entry `a:b:c` becomes the technology `a` in the detailed pipeline and the
technology `a:b:c` in `scanURL`; and of the two entries `PHP:8.1` and `PHP:7`,
visited in different orders, `scanURL` keeps version `7` and the detailed
pipeline version `8.1`. -/
theorem processURLDetailed_differs_from_scanURL :
    ((scanURL stubTransport (recordingPage stubAnswer (versionText "v2.3.1-beta")) stubRegexp
        false "Mozilla/5.0" "https://example.com" stubClientInfo.toWappalyze).Technologies
        "jQuery" = some "1.2"
      ∧ (processURLDetailed stubTransport (recordingPage stubAnswer (versionText "v2.3.1-beta"))
        stubRegexp false "Mozilla/5.0" "https://example.com"
        stubClientInfo).Technologies.versions "jQuery" = none)
    ∧ ((scanURL stubTransport offlinePage stubRegexp true "Mozilla/5.0" "https://example.com"
        twoColonClient.toWappalyze).Technologies "a" = none
      ∧ (processURLDetailed stubTransport offlinePage stubRegexp true "Mozilla/5.0"
        "https://example.com" twoColonClient).Technologies.versions "a" = some "")
    ∧ ((scanURL stubTransport offlinePage stubRegexp true "Mozilla/5.0" "https://example.com"
        twoVersionsClient.toWappalyze).Technologies "PHP" = some "7"
      ∧ (processURLDetailed stubTransport offlinePage stubRegexp true "Mozilla/5.0"
        "https://example.com" twoVersionsClient).Technologies.versions "PHP" = some "8.1") := by
  refine ⟨⟨by rfl, by rfl⟩, ⟨by rfl, by rfl⟩, ⟨by rfl, by rfl⟩⟩

/-- C17, amended: for every oracle match set of entries `name` or `name:version`
(names and versions without a colon, one entry per name) given with the same
keys, in any two visiting orders, to `formatDetailedFingerprints` and
`formatSimpleFingerprints`, and for every browser outcome: when the fetch fails
and in static mode, the name -> version projection of the technologies produced
by `processURLsDetailed` for a URL equals the technologies map produced by
`scanURL` for the same URL and mode; in hybrid mode the projection equals the
map of `scanURL` on every technology of the static baseline and has no other
key. -/
theorem processURLDetailed_versions {σ : Type} (http : Transport) (b : Browser σ)
    (re : Regexp) (userAgent url : String) (wappalyzerClient : WappalyzeInfo) :
    (∀ (staticMode : Bool) (err : String),
        fetchURLStatic http userAgent url = Except.error err →
        (processURLDetailed http b re staticMode userAgent url
            wappalyzerClient).Technologies.versions
          = (scanURL http b re staticMode userAgent url
              wappalyzerClient.toWappalyze).Technologies)
    ∧ (∀ (headers : Headers) (body : Body) (simple : List (String × Option String))
        (detailed : List ((String × Option String) × AppInfo)),
        fetchURLStatic http userAgent url = Except.ok (headers, body) →
        wappalyzerClient.Fingerprint headers body = simple.map renderEntry →
        wappalyzerClient.FingerprintWithInfo headers body
          = detailed.map (fun e => (renderEntry e.1, e.2)) →
        simple.Perm (detailed.map Prod.fst) →
        (∀ e ∈ simple, ':' ∉ e.1.data ∧ ∀ v, e.2 = some v → ':' ∉ v.data) →
        (simple.map Prod.fst).Nodup →
        (processURLDetailed http b re true userAgent url
            wappalyzerClient).Technologies.versions
          = (scanURL http b re true userAgent url wappalyzerClient.toWappalyze).Technologies
        ∧ (∀ name : String,
            (processURLDetailed http b re false userAgent url
                wappalyzerClient).Technologies.versions name
              = if (formatSimpleFingerprints
                    (wappalyzerClient.Fingerprint headers body) name).isSome = true
                then (scanURL http b re false userAgent url
                  wappalyzerClient.toWappalyze).Technologies name
                else none)) := by
  constructor
  · intro staticMode err hfetch
    rw [processURLDetailed_of_fetch_error http b re staticMode userAgent url wappalyzerClient err
        hfetch,
      scanURL_of_fetch_error http b re staticMode userAgent url wappalyzerClient.toWappalyze err
        hfetch]
    rfl
  · intro headers body simple detailed hfetch hsimple hdetailed hperm hcolon hnodup
    have hbase := formatDetailed_versions_eq_simple simple detailed hperm hcolon hnodup
    rw [← hsimple, ← hdetailed] at hbase
    constructor
    · rw [processURLDetailed_static http b re userAgent url wappalyzerClient headers body hfetch,
        scanURL_of_static http b re userAgent url wappalyzerClient.toWappalyze headers body
          hfetch]
      exact hbase
    · intro name
      have hname : (formatDetailedFingerprints
            (wappalyzerClient.FingerprintWithInfo headers body) name).map
              (fun details => details.Version)
          = formatSimpleFingerprints (wappalyzerClient.Fingerprint headers body) name :=
        congrFun hbase name
      rw [scanURL_hybrid http b re userAgent url wappalyzerClient.toWappalyze headers body
        hfetch]
      simp only [DetailedTechnologies.versions]
      rw [processURLDetailed_hybrid http b re userAgent url wappalyzerClient headers body hfetch
        name, hbase]
      rcases hd : formatDetailedFingerprints
          (wappalyzerClient.FingerprintWithInfo headers body) name with _ | details
      · rw [hd] at hname
        simp only [Option.map_none'] at hname
        rw [← hname]
        simp
      · rw [hd] at hname
        simp only [Option.map_some'] at hname
        obtain ⟨v1, hv1, _⟩ := EnhanceWithVersions_keeps b re url
          (formatSimpleFingerprints (wappalyzerClient.Fingerprint headers body))
          wappalyzerClient.GetFingerprints name details.Version hname.symm
        rw [hv1, ← hname]
        simp

/-- Witness of C17 (amended): in hybrid mode on the stub page, the detailed
pipeline reports `PHP`, the technology of the static baseline, with the same
version as `scanURL`. -/
theorem processURLDetailed_versions_witness :
    fetchURLStatic stubTransport "Mozilla/5.0" "https://example.com"
      = Except.ok ([("X-Powered-By", ["PHP/8.1"])], [])
    ∧ (processURLDetailed stubTransport (recordingPage stubAnswer (versionText "v2.3.1-beta"))
        stubRegexp false "Mozilla/5.0" "https://example.com"
        stubClientInfo).Technologies.versions "PHP"
      = if (formatSimpleFingerprints
            (stubClientInfo.Fingerprint [("X-Powered-By", ["PHP/8.1"])] []) "PHP").isSome = true
        then (scanURL stubTransport (recordingPage stubAnswer (versionText "v2.3.1-beta"))
          stubRegexp false "Mozilla/5.0" "https://example.com"
          stubClientInfo.toWappalyze).Technologies "PHP"
        else none :=
  ⟨by rfl,
   ((processURLDetailed_versions stubTransport
      (recordingPage stubAnswer (versionText "v2.3.1-beta")) stubRegexp "Mozilla/5.0"
      "https://example.com" stubClientInfo).2
      [("X-Powered-By", ["PHP/8.1"])] [] [("PHP", some "8.1")]
      [(("PHP", some "8.1"),
        { Description := "PHP is a scripting language.", Website := "https://php.net",
          Categories := ["Programming languages"] })]
      (by rfl) (by rfl) (by rfl) (List.Perm.refl _) (by decide) (by decide)).2 "PHP"⟩

end Wappalyzergo
